import Mathlib

/-!
# NLSR name advertisements: merge, wire codec and prefix update commands

A shallow embedding of `src/lsa/name-lsa.cpp` (`NameLsa::update`,
`NameLsa::wireEncode`, `NameLsa::wireDecode`) and of
`src/update/command-processor.cpp` (`advertiseAndInsertPrefix`,
`withdrawAndRemovePrefix`).

`ndn::Name` is kept abstract: a type `Name` with a linear order
(`ndn::Name::operator<`).  A (name, cost) entry is the C++
`std::tuple<ndn::Name, size_t>`, embedded as `Name × Nat`.
-/

namespace nlsr

/-! ## Data model -/

/-- The `operator<` of `std::tuple<ndn::Name, size_t>`: lexicographic, first on
the name, then on the cost. -/
def tupleLess {Name : Type} [LinearOrder Name] (a b : Name × Nat) : Bool :=
  decide (a.1 < b.1) || (!decide (b.1 < a.1) && decide (a.2 < b.2))

/-- A pair sequence is strictly ascending (sorted and duplicate-free) under the
order of the tuples. -/
def StrictAscending {Name : Type} [LinearOrder Name] (l : List (Name × Nat)) : Prop :=
  l.Pairwise (fun a b => tupleLess a b = true)

instance {Name : Type} [LinearOrder Name] (l : List (Name × Nat)) :
    Decidable (StrictAscending l) :=
  inferInstanceAs (Decidable (l.Pairwise (fun a b => tupleLess a b = true)))

/-- An `ndn::Block` backed by bytes: the TLV-TYPE, the whole encoded element
and its TLV-VALUE. -/
structure Block where
  type : Nat
  wire : List Nat
  value : List Nat
deriving DecidableEq, Repr

/-- Modelled from the spec: `NamePrefixList`, whose header and implementation
(name-prefix-list.hpp/.cpp) are missing.  The spec describes it as an ordered,
deduplicated collection of (name, cost) pairs with insert and erase primitives;
the embedding stores the sequence that `getNameCosts()` returns.  Nothing in the
type forces the sequence to be ascending: statements that need it assume
`StrictAscending`. -/
structure NamePrefixList (Name : Type) where
  m_nameCosts : List (Name × Nat)

namespace NamePrefixList

variable {Name : Type} [LinearOrder Name]

/-- Modelled from the spec: `NamePrefixList::getNameCosts`, the sequence of
(name, cost) pairs in the order of the collection. -/
def getNameCosts (npl : NamePrefixList Name) : List (Name × Nat) :=
  npl.m_nameCosts

/-- Modelled from the spec: the insertion step of the ordered, deduplicated
collection.  The pair goes in front of the first greater entry; an equal entry
makes the insertion a no-op.  The flag says whether an entry was added. -/
def insertEntry (p : Name × Nat) : List (Name × Nat) → Bool × List (Name × Nat)
  | [] => (true, [p])
  | q :: l =>
    if tupleLess p q then (true, p :: q :: l)
    else if tupleLess q p then ((insertEntry p l).1, q :: (insertEntry p l).2)
    else (false, q :: l)

/-- Modelled from the spec: `NamePrefixList::insert` of a (name, cost) pair.
"Insertion is keyed on the full pair": it adds the pair at its place in the
order unless that very pair is present, and returns whether it added an entry. -/
def insert (npl : NamePrefixList Name) (p : Name × Nat) : Bool × NamePrefixList Name :=
  ((insertEntry p npl.m_nameCosts).1, ⟨(insertEntry p npl.m_nameCosts).2⟩)

/-- Modelled from the spec: erasing one (name, cost) pair ("erase every pair in
`removed`"); returns whether the pair was present. -/
def eraseNameCost (npl : NamePrefixList Name) (p : Name × Nat) : Bool × NamePrefixList Name :=
  (decide (p ∈ npl.m_nameCosts), ⟨npl.m_nameCosts.filter (fun q => decide (q ≠ p))⟩)

/-- Modelled from the spec: `NamePrefixList::erase` by name, as used by the
withdraw command: afterwards no entry of that name is left; returns whether an
entry was removed ("no-op removal of an absent prefix"). -/
def erase (npl : NamePrefixList Name) (name : Name) : Bool × NamePrefixList Name :=
  (npl.m_nameCosts.any (fun q => decide (q.1 = name)),
   ⟨npl.m_nameCosts.filter (fun q => decide (q.1 ≠ name))⟩)

end NamePrefixList

/-- The base `Lsa` fields: origin router, sequence number (`uint64_t`) and
expiration time point. -/
structure Lsa (Name : Type) where
  m_originRouter : Name
  m_seqNo : Nat
  m_expirationTimePoint : Nat

/-- A `NameLsa`: the base fields, the name prefix list `m_npl` and the cached
wire `m_wire` (`none` when `m_wire.hasWire()` is false). -/
structure NameLsa (Name : Type) extends Lsa Name where
  m_npl : NamePrefixList Name
  m_wire : Option Block

namespace NameLsa

variable {Name : Type} [LinearOrder Name]

/-- Modelled from the spec: `NameLsa::addName`, declared in the missing
name-lsa.hpp: a mutation invalidates the cached wire and inserts the pair. -/
def addName (self : NameLsa Name) (name : Name × Nat) : NameLsa Name :=
  { self with m_wire := none, m_npl := (self.m_npl.insert name).2 }

/-- Modelled from the spec: `NameLsa::removeName`, declared in the missing
name-lsa.hpp: a mutation invalidates the cached wire and erases the pair. -/
def removeName (self : NameLsa Name) (name : Name × Nat) : NameLsa Name :=
  { self with m_wire := none, m_npl := (self.m_npl.eraseNameCost name).2 }

end NameLsa

/-! ## `NameLsa::update` -/

section Update

variable {Name : Type} [LinearOrder Name]

/-- The algorithm `std::set_difference(first1, last1, first2, last2, out)` with
`operator<` of the tuple: one forward pass over both ranges. -/
def set_difference : List (Name × Nat) → List (Name × Nat) → List (Name × Nat)
  | [], _ => []
  | a :: as, [] => a :: as
  | a :: as, b :: bs =>
    if tupleLess a b then a :: set_difference as (b :: bs)
    else if tupleLess b a then set_difference (a :: as) bs
    else set_difference as bs
termination_by l1 l2 => l1.length + l2.length

/-- The loop `for (name : namesToAdd) { addName(name); updated = true; }`. -/
def addNames (names : List (Name × Nat)) (st : NameLsa Name × Bool) : NameLsa Name × Bool :=
  names.foldl (fun s name => (s.1.addName name, true)) st

/-- The loop `for (name : namesToRemove) { removeName(name); updated = true; }`. -/
def removeNames (names : List (Name × Nat)) (st : NameLsa Name × Bool) : NameLsa Name × Bool :=
  names.foldl (fun s name => (s.1.removeName name, true)) st

/-- The method `NameLsa::update(lsa)`: returns `{updated, namesToAdd, namesToRemove}`
together with the object after the call. -/
def NameLsa.update (self lsa : NameLsa Name) :
    (Bool × List (Name × Nat) × List (Name × Nat)) × NameLsa Name :=
  let newNames := lsa.m_npl.getNameCosts
  let oldNames := self.m_npl.getNameCosts
  let namesToAdd := set_difference newNames oldNames
  let st1 := addNames namesToAdd (self, false)
  let namesToRemove := set_difference oldNames newNames
  let st2 := removeNames namesToRemove st1
  ((st2.2, namesToAdd, namesToRemove), st2.1)

end Update

/-! ## TLV primitives (ndn-cxx `Encoder`, `tlv::readVarNumber`, `Block`) -/

/-- The `k` low bytes of `n`, most significant first (network byte order). -/
def bigEndian : Nat → Nat → List Nat
  | 0, _ => []
  | k + 1, n => (n / 256 ^ k) % 256 :: bigEndian k n

/-- The number that a big-endian byte sequence stands for. -/
def fromBigEndian (bs : List Nat) : Nat :=
  bs.foldl (fun acc b => acc * 256 + b) 0

/-- The bytes of a TLV variable-size number (`uint64_t`): one byte below 253,
otherwise a marker 253, 254 or 255 followed by 2, 4 or 8 bytes. -/
def varNumber (number : Nat) : List Nat :=
  if number < 253 then [number]
  else if number ≤ 65535 then 253 :: bigEndian 2 number
  else if number ≤ 4294967295 then 254 :: bigEndian 4 number
  else 255 :: bigEndian 8 (number % 2 ^ 64)

/-- The call `block.prependVarNumber(number)` on a prepend-style encoder whose
content is `block`: returns the number of bytes written and the new content. -/
def prependVarNumber (block : List Nat) (number : Nat) : Nat × List Nat :=
  ((varNumber number).length, varNumber number ++ block)

/-- The function `tlv::readVarNumber`: reads a variable-size number off the front
of the bytes; `none` when the bytes run out. -/
def readVarNumber : List Nat → Option (Nat × List Nat)
  | [] => none
  | firstOctet :: rest =>
    if firstOctet < 253 then some (firstOctet, rest)
    else
      let size := if firstOctet = 253 then 2 else if firstOctet = 254 then 4 else 8
      if rest.length < size then none
      else some (fromBigEndian (rest.take size), rest.drop size)

/-- The function `tlv::readType`: a variable-size number that is a legal
TLV-TYPE (not 0, at most 32 bits). -/
def readType (bs : List Nat) : Option (Nat × List Nat) :=
  match readVarNumber bs with
  | none => none
  | some (type, rest) => if type = 0 ∨ 4294967295 < type then none else some (type, rest)

/-- The constructor of `Block` from a whole buffer with length verification, as
called by `EncodingBuffer::block()`: `none` when it throws. -/
def Block.fromBuffer (bs : List Nat) : Option Block :=
  match readType bs with
  | none => none
  | some (type, r1) =>
    match readVarNumber r1 with
    | none => none
    | some (length, r2) => if length ≠ r2.length then none else some ⟨type, bs, r2⟩

/-- The loop of `Block::parse()` over the TLV-VALUE: splits the bytes into
sub-elements; `none` when it throws.  The first argument bounds the number of
loop rounds; the number of bytes is always enough. -/
def parseElements : Nat → List Nat → Option (List Block)
  | _, [] => some []
  | 0, _ :: _ => none
  | fuel + 1, b :: bs =>
    match readType (b :: bs) with
    | none => none
    | some (type, r1) =>
      match readVarNumber r1 with
      | none => none
      | some (length, r2) =>
        if r2.length < length then none
        else
          match parseElements fuel (r2.drop length) with
          | none => none
          | some elements =>
            some (⟨type, (b :: bs).take ((b :: bs).length - (r2.length - length)),
                    r2.take length⟩ :: elements)

/-- The method `Block::parse()` followed by reading `elements()`. -/
def Block.parse (b : Block) : Option (List Block) :=
  parseElements b.value.length b.value

/-! ## `NameLsa` wire codec -/

/-- The TLV-TYPE numbers `nlsr::tlv::NameLsa`, `nlsr::tlv::Lsa` and
`nlsr::tlv::PrefixCost` of the missing tlv-nlsr.hpp: they are parameters of the
codec. -/
structure TlvTypes where
  NameLsa : Nat
  Lsa : Nat
  PrefixCost : Nat

/-- The arguments of a `NameLsa::Error` (the constructors inherited from
`ndn::tlv::Error`): an expected element name with the TLV-TYPE found, or a
message. -/
inductive ErrorArgs where
  | unexpectedType (expectedType : String) (actualType : Nat)
  | what (message : String)
deriving DecidableEq, Repr

/-- What a decoding call can throw: a `NameLsa::Error`, the `ndn::tlv::Error` of
`Block::parse()`, or the error of a nested decoder. -/
inductive Thrown where
  | nameLsaError (args : ErrorArgs)
  | tlvError
  | nested (args : ErrorArgs)
deriving DecidableEq, Repr

deriving instance DecidableEq for Except

/-- The codecs that `NameLsa` delegates to, whose code is missing and which are
parameters here: `Lsa::wireEncode` / `Lsa::wireDecode` of the base class and the
encoding / decoding of one (name, cost) tuple.  An encoder is given by the bytes
it prepends to the encoder (and it returns their number). -/
structure SubCodecs (Name : Type) where
  lsaWireEncode : Lsa Name → List Nat
  lsaWireDecode : Block → Except Thrown (Lsa Name)
  prefixCostWireEncode : Name × Nat → List Nat
  prefixCostWireDecode : Block → Except Thrown (Name × Nat)

section Codec

variable {Name : Type} [LinearOrder Name]

/-- The loop `for (it = names.rbegin(); it != names.rend(); ++it)
totalLength += it->wireEncode(block);` on the pair `(totalLength, block)`. -/
def encodeNames (c : SubCodecs Name) (names : List (Name × Nat)) (st : Nat × List Nat) :
    Nat × List Nat :=
  names.reverse.foldl
    (fun st it => (st.1 + (c.prefixCostWireEncode it).length, c.prefixCostWireEncode it ++ st.2))
    st

/-- The template `NameLsa::wireEncode(EncodingImpl<TAG>& block)`: returns
`totalLength` and the content of the encoder afterwards. -/
def NameLsa.wireEncodeImpl (c : SubCodecs Name) (t : TlvTypes) (self : NameLsa Name)
    (block : List Nat) : Nat × List Nat :=
  let names := self.m_npl.getNameCosts
  let st := encodeNames c names (0, block)
  let st := (st.1 + (c.lsaWireEncode self.toLsa).length, c.lsaWireEncode self.toLsa ++ st.2)
  let st := (st.1 + (prependVarNumber st.2 st.1).1, (prependVarNumber st.2 st.1).2)
  let st := (st.1 + (prependVarNumber st.2 t.NameLsa).1, (prependVarNumber st.2 t.NameLsa).2)
  st

/-- The method `NameLsa::wireEncode()`: the cached wire when there is one,
otherwise a fresh encoding that is stored as the cache.  Returns the block
(`none` if `buffer.block()` throws) and the object afterwards.  The first pass
over an `EncodingEstimator` only sizes the buffer; its result is the first
component of `wireEncodeImpl`. -/
def NameLsa.wireEncode (c : SubCodecs Name) (t : TlvTypes) (self : NameLsa Name) :
    Option Block × NameLsa Name :=
  match self.m_wire with
  | some wire => (some wire, self)
  | none =>
    let buffer := (self.wireEncodeImpl c t []).2
    match Block.fromBuffer buffer with
    | none => (none, self)
    | some wire => (some wire, { self with m_wire := some wire })

/-- The loop of `NameLsa::wireDecode` over the elements after the first one:
every `PrefixCost` element is decoded and inserted into `npl`, any other
TLV-TYPE throws `Error("Name", type)`. -/
def decodeNames (c : SubCodecs Name) (t : TlvTypes) :
    List Block → NamePrefixList Name → Except Thrown (NamePrefixList Name)
  | [], npl => .ok npl
  | val :: rest, npl =>
    if val.type = t.PrefixCost then
      match c.prefixCostWireDecode val with
      | .error e => .error e
      | .ok nameCost => decodeNames c t rest (npl.insert nameCost).2
    else .error (.nameLsaError (.unexpectedType "Name" val.type))

/-- The method `NameLsa::wireDecode(wire)`: returns the outcome (`.error` when
it throws) and the object afterwards.  `m_wire` is assigned first, the base
fields are replaced when `Lsa::wireDecode` returns, `m_npl` is replaced last.
When `Lsa::wireDecode` itself throws, the base fields are kept as they were,
which is an approximation: that code is missing. -/
def NameLsa.wireDecode (c : SubCodecs Name) (t : TlvTypes) (self : NameLsa Name)
    (wire : Block) : Except Thrown Unit × NameLsa Name :=
  let self1 : NameLsa Name := { self with m_wire := some wire }
  if wire.type ≠ t.NameLsa then
    (.error (.nameLsaError (.unexpectedType "NameLsa" wire.type)), self1)
  else
    match wire.parse with
    | none => (.error .tlvError, self1)
    | some [] => (.error (.nameLsaError (.what "Missing required Lsa field")), self1)
    | some (val :: rest) =>
      if val.type = t.Lsa then
        match c.lsaWireDecode val with
        | .error e => (.error e, self1)
        | .ok base =>
          let self2 : NameLsa Name := { self1 with toLsa := base }
          match decodeNames c t rest ⟨[]⟩ with
          | .error e => (.error e, self2)
          | .ok npl => (.ok (), { self2 with m_npl := npl })
      else (.error (.nameLsaError (.what "Missing required Lsa field")), self1)

end Codec

/-! ## Prefix update commands (`update::CommandProcessor`) -/

/-- The number of low bits that do not fit the 53-bit significand of a
binary64: the least `e` with `n / 2 ^ e < 2 ^ 53`.  The first argument bounds the
count; 11 is enough below `2 ^ 64`. -/
def excessBits : Nat → Nat → Nat
  | 0, _ => 0
  | fuel + 1, n => if n < 2 ^ 53 then 0 else 1 + excessBits fuel (n / 2)

/-- The conversion `(double) x` of a `uint64_t` (the value `x` taken modulo
`2 ^ 64`) to IEEE 754 binary64, in the default rounding mode: to nearest, ties to
even.  The result is a whole number and is kept as a natural number; it is `x`
itself below `2 ^ 53`. -/
def uint64ToDouble (x : Nat) : Nat :=
  let n := x % 2 ^ 64
  let e := excessBits 11 n
  let q := n / 2 ^ e
  let r := n % 2 ^ e
  if 2 * r < 2 ^ e then q * 2 ^ e
  else if 2 ^ e < 2 * r then (q + 1) * 2 ^ e
  else if q % 2 = 0 then q * 2 ^ e
  else (q + 1) * 2 ^ e

/-- The constant `PREFIX_FLAG` of manager-base.hpp. -/
def PREFIX_FLAG : Nat := 1

/-- The fields of `ndn::nfd::ControlParameters` that the commands read: the
name, the optional cost and the optional flags. -/
structure ControlParameters (Name : Type) where
  m_name : Name
  m_cost : Option Nat
  m_flags : Option Nat

namespace ControlParameters

variable {Name : Type}

def getName (p : ControlParameters Name) : Name := p.m_name

def hasCost (p : ControlParameters Name) : Bool := p.m_cost.isSome

def getCost (p : ControlParameters Name) : Nat := p.m_cost.getD 0

def hasFlags (p : ControlParameters Name) : Bool := p.m_flags.isSome

def getFlags (p : ControlParameters Name) : Nat := p.m_flags.getD 0

end ControlParameters

/-- An `ndn::nfd::ControlResponse`: status code, status text and body. -/
structure ControlResponse where
  code : Nat
  text : String
  body : List Nat
deriving DecidableEq, Repr

/-- What surrounds a `CommandProcessor`: the virtual hooks `afterAdvertise` and
`afterWithdraw` (an `std::optional<bool>`) and the wire encoding of the request
parameters (`parameters.wireEncode()`, from ndn-cxx). -/
structure CommandEnv (Name : Type) where
  afterAdvertise : Name → Option Bool
  afterWithdraw : Name → Option Bool
  wireEncode : ControlParameters Name → List Nat

/-- The hooks of `CommandManagerBase` itself (manager-base.hpp): both return
`std::nullopt`. -/
def CommandManagerBase.env {Name : Type} (wireEncode : ControlParameters Name → List Nat) :
    CommandEnv Name where
  afterAdvertise := fun _ => none
  afterWithdraw := fun _ => none
  wireEncode := wireEncode

/-- The observable steps of a command, in the order they happen: the call
`m_lsdb.buildAndInstallOwnNameLsa()` (with the prefix list it finds), a call of
a hook, and the call of the continuation `done` with the response. -/
inductive Event (Name : Type) where
  | buildAndInstallOwnNameLsa (npl : NamePrefixList Name)
  | afterAdvertise (name : Name)
  | afterWithdraw (name : Name)
  | done (response : ControlResponse)

namespace Event

variable {Name : Type}

/-- The response of a `done` step. -/
def response? : Event Name → Option ControlResponse
  | done r => some r
  | _ => none

/-- Whether the step is a call of `buildAndInstallOwnNameLsa`. -/
def isBuild : Event Name → Bool
  | buildAndInstallOwnNameLsa _ => true
  | _ => false

/-- Whether the step is a call of a hook. -/
def isHook : Event Name → Bool
  | afterAdvertise _ => true
  | afterWithdraw _ => true
  | _ => false

end Event

section Commands

variable {Name : Type} [LinearOrder Name]

/-- The responses passed to `done`, in order. -/
def responses (trace : List (Event Name)) : List ControlResponse :=
  trace.filterMap Event.response?

/-- The number of calls of `buildAndInstallOwnNameLsa`. -/
def buildCount (trace : List (Event Name)) : Nat :=
  trace.countP Event.isBuild

/-- The method `CommandProcessor::advertiseAndInsertPrefix(parameters, done)` on
the prefix list `m_namePrefixList`: returns the prefix list afterwards and the
steps taken.  The call `insert(name, "", (double) cost)` is the insertion of the
pair of the name and the cost converted to `double`, a whole number that the
prefix list keeps as the cost. -/
def advertiseAndInsertPrefix (env : CommandEnv Name) (m_namePrefixList : NamePrefixList Name)
    (parameters : ControlParameters Name) : NamePrefixList Name × List (Event Name) :=
  let castParams := parameters
  let inserted := m_namePrefixList.insert
    (castParams.getName,
      uint64ToDouble (if castParams.hasCost then castParams.getCost else 0))
  if inserted.1 then
    if castParams.hasFlags && castParams.getFlags == PREFIX_FLAG then
      if env.afterAdvertise castParams.getName == some true then
        (inserted.2, [.buildAndInstallOwnNameLsa inserted.2, .afterAdvertise castParams.getName,
          .done ⟨205, "OK", env.wireEncode parameters⟩])
      else
        (inserted.2, [.buildAndInstallOwnNameLsa inserted.2, .afterAdvertise castParams.getName,
          .done ⟨406, "Failed to open configuration file.", env.wireEncode parameters⟩])
    else
      (inserted.2, [.buildAndInstallOwnNameLsa inserted.2,
        .done ⟨200, "OK", env.wireEncode parameters⟩])
  else
    if castParams.hasFlags && castParams.getFlags == PREFIX_FLAG then
      if env.afterAdvertise castParams.getName == some true then
        (inserted.2, [.afterAdvertise castParams.getName,
          .done ⟨205, "OK", env.wireEncode parameters⟩])
      else
        (inserted.2, [.afterAdvertise castParams.getName,
          .done ⟨406, "Prefix is already Saved/Failed to open configuration file.",
            env.wireEncode parameters⟩])
    else
      (inserted.2, [.done ⟨204, "Prefix is already advertised/inserted.",
        env.wireEncode parameters⟩])

/-- The method `CommandProcessor::withdrawAndRemovePrefix(parameters, done)` on
the prefix list `m_namePrefixList`: returns the prefix list afterwards and the
steps taken. -/
def withdrawAndRemovePrefix (env : CommandEnv Name) (m_namePrefixList : NamePrefixList Name)
    (parameters : ControlParameters Name) : NamePrefixList Name × List (Event Name) :=
  let castParams := parameters
  let erased := m_namePrefixList.erase castParams.getName
  if erased.1 then
    if castParams.hasFlags && castParams.getFlags == PREFIX_FLAG then
      if env.afterWithdraw castParams.getName == some true then
        (erased.2, [.buildAndInstallOwnNameLsa erased.2, .afterWithdraw castParams.getName,
          .done ⟨205, "OK", env.wireEncode parameters⟩])
      else
        (erased.2, [.buildAndInstallOwnNameLsa erased.2, .afterWithdraw castParams.getName,
          .done ⟨406, "Failed to open configuration file.", env.wireEncode parameters⟩])
    else
      (erased.2, [.buildAndInstallOwnNameLsa erased.2,
        .done ⟨200, "OK", env.wireEncode parameters⟩])
  else
    if castParams.hasFlags && castParams.getFlags == PREFIX_FLAG then
      if env.afterWithdraw castParams.getName == some true then
        (erased.2, [.afterWithdraw castParams.getName,
          .done ⟨205, "OK", env.wireEncode parameters⟩])
      else
        (erased.2, [.afterWithdraw castParams.getName,
          .done ⟨406, "Prefix is already deleted/Failed to open configuration file.",
            env.wireEncode parameters⟩])
    else
      (erased.2, [.done ⟨204, "Prefix is already withdrawn/removed.",
        env.wireEncode parameters⟩])

/-- Persistence is requested: `hasFlags() && getFlags() == PREFIX_FLAG`. -/
def persistRequested (parameters : ControlParameters Name) : Bool :=
  parameters.hasFlags && parameters.getFlags == PREFIX_FLAG

/-- The pair that an advertise request inserts: the name with
`(double)(hasCost() ? getCost() : 0)`. -/
def advertisedPair (parameters : ControlParameters Name) : Name × Nat :=
  (parameters.getName,
    uint64ToDouble (if parameters.hasCost then parameters.getCost else 0))

end Commands

/-- The status codes of the responses passed to `done`, in order. -/
def codes {Name : Type} (trace : List (Event Name)) : List Nat :=
  (trace.filterMap Event.response?).map ControlResponse.code

/-- The calls of a hook among the steps, in order. -/
def hookCalls {Name : Type} (trace : List (Event Name)) : List (Event Name) :=
  trace.filter Event.isHook

/-- The bodies of the responses passed to `done`, in order. -/
def bodies {Name : Type} (trace : List (Event Name)) : List (List Nat) :=
  (trace.filterMap Event.response?).map ControlResponse.body

/-- A sample parameter encoding: name, cost (or 0) and flags (or 0). -/
def sampleParamsEncode (p : ControlParameters Nat) : List Nat :=
  [p.m_name, p.m_cost.getD 0, p.m_flags.getD 0]

/-- A sample environment whose hooks report a failure. -/
def failingEnv : CommandEnv Nat := ⟨fun _ => some false, fun _ => some false, sampleParamsEncode⟩

/-- A sample environment whose hooks report success. -/
def savingEnv : CommandEnv Nat := ⟨fun _ => some true, fun _ => some true, sampleParamsEncode⟩

/-! ## A small concrete instance, used to exercise the statements -/

/-- Sample TLV-TYPE numbers. -/
def sampleTypes : TlvTypes := ⟨137, 128, 150⟩

/-- Sample nested codecs over names that are single numbers: the base LSA is the
element `128 3 origin seqNo expiration`, a pair is the element `150 2 name cost`. -/
def sampleCodecs : SubCodecs Nat where
  lsaWireEncode := fun l => [128, 3, l.m_originRouter, l.m_seqNo, l.m_expirationTimePoint]
  lsaWireDecode := fun b =>
    match b.value with
    | [r, s, e] => .ok ⟨r, s, e⟩
    | _ => .error (.nested (.what "Lsa"))
  prefixCostWireEncode := fun p => [150, 2, p.1, p.2]
  prefixCostWireDecode := fun b =>
    match b.value with
    | [n, k] => .ok (n, k)
    | _ => .error (.nested (.what "PrefixCost"))

/-- A received `NameLsa` block whose two `PrefixCost` children are in descending
order: `137 13 (128 3 7 1 0) (150 2 2 5) (150 2 1 5)`. -/
def sampleUnsortedWire : Block :=
  ⟨137, [137, 13, 128, 3, 7, 1, 0, 150, 2, 2, 5, 150, 2, 1, 5],
    [128, 3, 7, 1, 0, 150, 2, 2, 5, 150, 2, 1, 5]⟩

/-- An object to decode into. -/
def sampleEmptyLsa : NameLsa Nat := ⟨⟨0, 0, 0⟩, ⟨[]⟩, none⟩

/-- The children of `sampleUnsortedWire`. -/
def sampleElements : List Block :=
  [⟨128, [128, 3, 7, 1, 0], [7, 1, 0]⟩, ⟨150, [150, 2, 2, 5], [2, 5]⟩,
    ⟨150, [150, 2, 1, 5], [1, 5]⟩]

/-- The TLV-VALUE of a fresh encoding: the base LSA element followed by one
element per pair, in the order of the collection. -/
def NameLsa.encodedValue {Name : Type} (c : SubCodecs Name) (self : NameLsa Name) : List Nat :=
  c.lsaWireEncode self.toLsa ++ (self.m_npl.m_nameCosts.map c.prefixCostWireEncode).flatten

/-- An object with two pairs and no cached wire. -/
def sampleLsa : NameLsa Nat := ⟨⟨7, 1, 0⟩, ⟨[(1, 5), (2, 5)]⟩, none⟩

/-- An object whose pair sequence is not ascending and that holds a cached
wire. -/
def sampleUnsortedCachedLsa : NameLsa Char :=
  ⟨⟨'r', 1, 0⟩, ⟨[('b', 1), ('a', 1)]⟩, some ⟨137, [137, 0], []⟩⟩

/-- An incoming object with the same pair sequence as `sampleUnsortedCachedLsa`
and a later sequence number. -/
def sampleUnsortedIncoming : NameLsa Char :=
  ⟨⟨'r', 2, 9⟩, ⟨[('b', 1), ('a', 1)]⟩, none⟩

/-- An object with the single pair `(a, 1)`. -/
def sampleSingleLsa : NameLsa Char :=
  ⟨⟨'r', 1, 0⟩, ⟨[('a', 1)]⟩, none⟩

/-- An object with the single pair `(1, 5)` that holds a cached wire. -/
def sampleCachedLsa : NameLsa Nat :=
  ⟨⟨7, 1, 0⟩, ⟨[(1, 5)]⟩, some ⟨137, [137, 9, 128, 3, 7, 1, 0, 150, 2, 1, 5],
    [128, 3, 7, 1, 0, 150, 2, 1, 5]⟩⟩

/-- A block whose outer TLV-TYPE is not `NameLsa`: `138 0`. -/
def sampleWrongTypeWire : Block := ⟨138, [138, 0], []⟩

/-- A `NameLsa` block with a base record for sequence number 9 followed by a
child of an unknown type: `137 7 (128 3 9 9 9) (151 0)`. -/
def sampleBadChildWire : Block :=
  ⟨137, [137, 7, 128, 3, 9, 9, 9, 151, 0], [128, 3, 9, 9, 9, 151, 0]⟩

/-! # Theorems -/

/-! ## Facts about the order on pairs -/

section Order

variable {Name : Type} [LinearOrder Name]

theorem tupleLess_iff (a b : Name × Nat) :
    tupleLess a b = true ↔ a.1 < b.1 ∨ (a.1 = b.1 ∧ a.2 < b.2) := by
  unfold tupleLess
  simp only [Bool.or_eq_true, Bool.and_eq_true, Bool.not_eq_true', decide_eq_true_eq,
    decide_eq_false_iff_not, not_lt]
  constructor
  · rintro (h | ⟨h1, h2⟩)
    · exact Or.inl h
    · rcases lt_or_eq_of_le h1 with h | h
      · exact Or.inl h
      · exact Or.inr ⟨h, h2⟩
  · rintro (h | ⟨h1, h2⟩)
    · exact Or.inl h
    · exact Or.inr ⟨le_of_eq h1, h2⟩

theorem tupleLess_irrefl (a : Name × Nat) : tupleLess a a = false := by
  cases h : tupleLess a a
  · rfl
  · rw [tupleLess_iff] at h
    rcases h with h | ⟨_, h⟩
    · exact absurd h (lt_irrefl _)
    · exact absurd h (lt_irrefl _)

theorem tupleLess_trans {a b c : Name × Nat} (hab : tupleLess a b = true)
    (hbc : tupleLess b c = true) : tupleLess a c = true := by
  rw [tupleLess_iff] at *
  rcases hab with h | ⟨h1, h2⟩
  · rcases hbc with h' | ⟨h1', _⟩
    · exact Or.inl (lt_trans h h')
    · exact Or.inl (h1' ▸ h)
  · rcases hbc with h' | ⟨h1', h2'⟩
    · exact Or.inl (h1 ▸ h')
    · exact Or.inr ⟨h1.trans h1', lt_trans h2 h2'⟩

theorem tupleLess_ne {a b : Name × Nat} (h : tupleLess a b = true) : a ≠ b := by
  intro e
  subst e
  rw [tupleLess_irrefl] at h
  exact Bool.noConfusion h

theorem eq_of_not_tupleLess {a b : Name × Nat} (h1 : tupleLess a b = false)
    (h2 : tupleLess b a = false) : a = b := by
  have n1 : ¬ (a.1 < b.1 ∨ (a.1 = b.1 ∧ a.2 < b.2)) := by
    rw [← tupleLess_iff, h1]; exact Bool.noConfusion
  have n2 : ¬ (b.1 < a.1 ∨ (b.1 = a.1 ∧ b.2 < a.2)) := by
    rw [← tupleLess_iff, h2]; exact Bool.noConfusion
  have e1 : a.1 = b.1 :=
    le_antisymm (not_lt.mp fun h => n2 (Or.inl h)) (not_lt.mp fun h => n1 (Or.inl h))
  have e2 : a.2 = b.2 :=
    le_antisymm (not_lt.mp fun h => n2 (Or.inr ⟨e1.symm, h⟩))
      (not_lt.mp fun h => n1 (Or.inr ⟨e1, h⟩))
  exact Prod.ext e1 e2

theorem StrictAscending.tail {a : Name × Nat} {l : List (Name × Nat)}
    (h : StrictAscending (a :: l)) : StrictAscending l :=
  (List.pairwise_cons.mp h).2

theorem StrictAscending.head_less {a : Name × Nat} {l : List (Name × Nat)}
    (h : StrictAscending (a :: l)) : ∀ x ∈ l, tupleLess a x = true :=
  (List.pairwise_cons.mp h).1

theorem StrictAscending.filter {l : List (Name × Nat)} (h : StrictAscending l)
    (f : Name × Nat → Bool) : StrictAscending (l.filter f) :=
  List.Pairwise.sublist (List.filter_sublist l) h

end Order

/-! ## `std::set_difference` on strictly ascending sequences -/

section UpdateFacts

variable {Name : Type} [LinearOrder Name]

theorem filter_notMem_cons_of_ne (b : Name × Nat) (bs l : List (Name × Nat))
    (h : ∀ x ∈ l, x ≠ b) :
    l.filter (fun p => decide (p ∉ b :: bs)) = l.filter (fun p => decide (p ∉ bs)) := by
  apply List.filter_congr
  intro x hx
  have := h x hx
  simp [this]

/-- On strictly ascending inputs, the forward pass of `std::set_difference`
keeps exactly the entries of the first range that are absent from the second. -/
theorem set_difference_eq_filter (l1 l2 : List (Name × Nat))
    (h1 : StrictAscending l1) (h2 : StrictAscending l2) :
    set_difference l1 l2 = l1.filter (fun p => decide (p ∉ l2)) := by
  induction l1, l2 using set_difference.induct with
  | case1 l2 => simp [set_difference]
  | case2 a l => simp [set_difference]
  | case3 a l b bs hab ih =>
    rw [set_difference, if_pos hab, ih h1.tail h2]
    have hnot : a ∉ b :: bs := by
      intro hmem
      rcases List.mem_cons.mp hmem with e | hm
      · exact tupleLess_ne hab e
      · exact tupleLess_ne (tupleLess_trans hab (h2.head_less a hm)) rfl
    rw [List.filter_cons_of_pos (by simpa using hnot)]
  | case4 a l b bs hab hba ih =>
    rw [set_difference, if_neg hab, if_pos hba, ih h1 h2.tail]
    symm
    apply filter_notMem_cons_of_ne
    intro x hx e
    subst e
    rcases List.mem_cons.mp hx with e | hm
    · subst e; rw [tupleLess_irrefl] at hba; exact Bool.noConfusion hba
    · have := tupleLess_trans (h1.head_less x hm) hba
      rw [tupleLess_irrefl] at this; exact Bool.noConfusion this
  | case5 a l b bs hab hba ih =>
    rw [set_difference, if_neg hab, if_neg hba, ih h1.tail h2.tail]
    have e : a = b := eq_of_not_tupleLess (by simpa using hab) (by simpa using hba)
    subst e
    rw [List.filter_cons_of_neg (by simp)]
    symm
    apply filter_notMem_cons_of_ne
    intro x hx e
    subst e
    have := h1.head_less x hx
    rw [tupleLess_irrefl] at this; exact Bool.noConfusion this

theorem addNames_snd (names : List (Name × Nat)) (st : NameLsa Name × Bool) :
    (addNames names st).2 = (st.2 || !names.isEmpty) := by
  unfold addNames
  induction names generalizing st with
  | nil => simp
  | cons a l ih => rw [List.foldl_cons, ih]; simp

theorem removeNames_snd (names : List (Name × Nat)) (st : NameLsa Name × Bool) :
    (removeNames names st).2 = (st.2 || !names.isEmpty) := by
  unfold removeNames
  induction names generalizing st with
  | nil => simp
  | cons a l ih => rw [List.foldl_cons, ih]; simp

theorem update_fst (self lsa : NameLsa Name) :
    (self.update lsa).1 =
      (!(set_difference lsa.m_npl.getNameCosts self.m_npl.getNameCosts).isEmpty
        || !(set_difference self.m_npl.getNameCosts lsa.m_npl.getNameCosts).isEmpty,
       set_difference lsa.m_npl.getNameCosts self.m_npl.getNameCosts,
       set_difference self.m_npl.getNameCosts lsa.m_npl.getNameCosts) := by
  simp [NameLsa.update, removeNames_snd, addNames_snd]

theorem mem_insertEntry (p x : Name × Nat) (l : List (Name × Nat)) :
    x ∈ (NamePrefixList.insertEntry p l).2 ↔ x = p ∨ x ∈ l := by
  induction l with
  | nil => simp [NamePrefixList.insertEntry]
  | cons q l ih =>
    unfold NamePrefixList.insertEntry
    by_cases h1 : tupleLess p q = true
    · simp [h1]
    · by_cases h2 : tupleLess q p = true
      · simp only [h1, h2, if_true, if_false, Bool.false_eq_true, List.mem_cons, ih]
        tauto
      · have e : p = q := eq_of_not_tupleLess (by simpa using h1) (by simpa using h2)
        subst e
        simp [h1]

theorem mem_addNames (names : List (Name × Nat)) (st : NameLsa Name × Bool) (x : Name × Nat) :
    x ∈ (addNames names st).1.m_npl.getNameCosts ↔ x ∈ names ∨ x ∈ st.1.m_npl.getNameCosts := by
  unfold addNames
  induction names generalizing st with
  | nil => simp
  | cons a l ih =>
    rw [List.foldl_cons, ih]
    simp only [NameLsa.addName, NamePrefixList.insert, NamePrefixList.getNameCosts,
      mem_insertEntry, List.mem_cons]
    tauto

theorem mem_removeNames (names : List (Name × Nat)) (st : NameLsa Name × Bool)
    (x : Name × Nat) :
    x ∈ (removeNames names st).1.m_npl.getNameCosts
      ↔ x ∈ st.1.m_npl.getNameCosts ∧ x ∉ names := by
  unfold removeNames
  induction names generalizing st with
  | nil => simp
  | cons a l ih =>
    rw [List.foldl_cons, ih]
    simp only [NameLsa.removeName, NamePrefixList.eraseNameCost, NamePrefixList.getNameCosts,
      List.mem_filter, List.mem_cons, decide_eq_true_eq, ne_eq]
    tauto

theorem update_snd (self lsa : NameLsa Name) :
    (self.update lsa).2 =
      (removeNames (set_difference self.m_npl.getNameCosts lsa.m_npl.getNameCosts)
        (addNames (set_difference lsa.m_npl.getNameCosts self.m_npl.getNameCosts)
          (self, false))).1 := rfl

end UpdateFacts

/-! ## Facts about the TLV primitives -/

section TlvFacts

theorem length_bigEndian (k n : Nat) : (bigEndian k n).length = k := by
  induction k with
  | zero => rfl
  | succ k ih => simp [bigEndian, ih]

theorem foldl_bigEndian (k n acc : Nat) :
    (bigEndian k n).foldl (fun acc b => acc * 256 + b) acc = acc * 256 ^ k + n % 256 ^ k := by
  induction k generalizing acc with
  | zero => simp [bigEndian, Nat.mod_one]
  | succ k ih =>
    rw [bigEndian, List.foldl_cons, ih, Nat.mod_pow_succ]
    ring

theorem fromBigEndian_bigEndian (k n : Nat) : fromBigEndian (bigEndian k n) = n % 256 ^ k := by
  unfold fromBigEndian
  rw [foldl_bigEndian]; simp

theorem readVarNumber_marker (m k n : Nat) (rest : List Nat) (hm : 253 ≤ m)
    (hk : (if m = 253 then 2 else if m = 254 then 4 else 8) = k) (hn : n < 256 ^ k) :
    readVarNumber (m :: bigEndian k n ++ rest) = some (n, rest) := by
  have hlen := length_bigEndian k n
  simp only [readVarNumber, List.cons_append, hk]
  rw [if_neg (by omega), if_neg (by rw [List.length_append, hlen]; omega)]
  rw [List.take_left' hlen, List.drop_left' hlen, fromBigEndian_bigEndian, Nat.mod_eq_of_lt hn]

theorem readVarNumber_varNumber (n : Nat) (rest : List Nat) (hn : n < 2 ^ 64) :
    readVarNumber (varNumber n ++ rest) = some (n, rest) := by
  unfold varNumber
  split
  · rename_i h
    simp [readVarNumber, h]
  · split
    · exact readVarNumber_marker 253 2 n rest (by omega) (by simp) (by norm_num; omega)
    · split
      · exact readVarNumber_marker 254 4 n rest (by omega) (by simp) (by norm_num; omega)
      · rw [Nat.mod_eq_of_lt hn]
        exact readVarNumber_marker 255 8 n rest (by omega) (by simp) (by norm_num; omega)

theorem readVarNumber_append (bs rest r : List Nat) (n : Nat)
    (h : readVarNumber bs = some (n, r)) : readVarNumber (bs ++ rest) = some (n, r ++ rest) := by
  cases bs with
  | nil => simp [readVarNumber] at h
  | cons b bs =>
    simp only [readVarNumber, List.cons_append] at h ⊢
    by_cases hb : b < 253
    · rw [if_pos hb] at h ⊢
      simp only [Option.some.injEq, Prod.mk.injEq] at h
      rw [h.1, h.2]
    · rw [if_neg hb] at h ⊢
      generalize (if b = 253 then 2 else if b = 254 then 4 else 8) = size at h ⊢
      by_cases hl : bs.length < size
      · rw [if_pos hl] at h
        exact Option.noConfusion h
      · rw [if_neg hl] at h
        simp only [Option.some.injEq, Prod.mk.injEq] at h
        have hl2 : size ≤ bs.length := by omega
        rw [if_neg (by rw [List.length_append]; omega), List.take_append_of_le_length hl2,
          List.drop_append_of_le_length hl2, h.1, h.2]

theorem readVarNumber_length (bs r : List Nat) (n : Nat) (h : readVarNumber bs = some (n, r)) :
    r.length < bs.length := by
  cases bs with
  | nil => simp [readVarNumber] at h
  | cons b bs =>
    simp only [readVarNumber] at h
    by_cases hb : b < 253
    · rw [if_pos hb] at h
      simp only [Option.some.injEq, Prod.mk.injEq] at h
      rw [← h.2]; simp
    · rw [if_neg hb] at h
      generalize (if b = 253 then 2 else if b = 254 then 4 else 8) = size at h
      by_cases hl : bs.length < size
      · rw [if_pos hl] at h
        exact Option.noConfusion h
      · rw [if_neg hl] at h
        simp only [Option.some.injEq, Prod.mk.injEq] at h
        rw [← h.2]; simp; omega

theorem readType_append (bs rest r : List Nat) (n : Nat)
    (h : readType bs = some (n, r)) : readType (bs ++ rest) = some (n, r ++ rest) := by
  unfold readType at h ⊢
  cases hv : readVarNumber bs with
  | none => rw [hv] at h; exact Option.noConfusion h
  | some v =>
    obtain ⟨ty, r1⟩ := v
    rw [hv] at h
    rw [readVarNumber_append bs rest r1 ty hv]
    simp only at h ⊢
    by_cases hty : ty = 0 ∨ 4294967295 < ty
    · rw [if_pos hty] at h; exact Option.noConfusion h
    · rw [if_neg hty] at h ⊢
      simp only [Option.some.injEq, Prod.mk.injEq] at h
      rw [h.1, h.2]

theorem readType_length (bs r : List Nat) (n : Nat) (h : readType bs = some (n, r)) :
    r.length < bs.length := by
  unfold readType at h
  cases hv : readVarNumber bs with
  | none => rw [hv] at h; exact Option.noConfusion h
  | some v =>
    obtain ⟨ty, r1⟩ := v
    rw [hv] at h
    simp only at h
    by_cases hty : ty = 0 ∨ 4294967295 < ty
    · rw [if_pos hty] at h; exact Option.noConfusion h
    · rw [if_neg hty] at h
      simp only [Option.some.injEq, Prod.mk.injEq] at h
      rw [← h.2]
      exact readVarNumber_length bs r1 ty hv

/-- What `Block.fromBuffer` returns, spelled out. -/
theorem fromBuffer_eq_some (e : List Nat) (b : Block) (h : Block.fromBuffer e = some b) :
    ∃ r1, readType e = some (b.type, r1) ∧ readVarNumber r1 = some (b.value.length, b.value)
      ∧ b.wire = e := by
  unfold Block.fromBuffer at h
  cases ht : readType e with
  | none => rw [ht] at h; exact Option.noConfusion h
  | some v =>
    obtain ⟨ty, r1⟩ := v
    rw [ht] at h
    simp only at h
    cases hl : readVarNumber r1 with
    | none => rw [hl] at h; exact Option.noConfusion h
    | some w =>
      obtain ⟨len, r2⟩ := w
      rw [hl] at h
      simp only at h
      by_cases hne : len ≠ r2.length
      · rw [if_pos hne] at h; exact Option.noConfusion h
      · rw [if_neg hne] at h
        have hb : b = ⟨ty, e, r2⟩ := (Option.some.inj h).symm
        subst hb
        exact ⟨r1, rfl, by rw [hl, not_not.mp hne], rfl⟩

/-- An element that is a whole block by itself is the first element that the
loop of `Block::parse()` splits off. -/
theorem parseElements_append (e : List Nat) (b : Block) (h : Block.fromBuffer e = some b)
    (fuel : Nat) (rest : List Nat) :
    parseElements (fuel + 1) (e ++ rest) = (parseElements fuel rest).map (fun es => b :: es) := by
  obtain ⟨r1, ht, hl, hw⟩ := fromBuffer_eq_some e b h
  have hlen1 := readType_length e r1 _ ht
  have hlen2 := readVarNumber_length r1 b.value _ hl
  cases e with
  | nil => simp at hlen1
  | cons b0 e1 =>
    have ht2 := readType_append (b0 :: e1) rest r1 _ ht
    have hl2 := readVarNumber_append r1 rest b.value _ hl
    rw [List.cons_append] at ht2 ⊢
    simp only [parseElements, ht2, hl2]
    rw [if_neg (by rw [List.length_append]; omega), List.drop_left, List.take_left]
    have hk : (b0 :: (e1 ++ rest)).length - ((b.value ++ rest).length - b.value.length)
        = (b0 :: e1).length := by
      simp only [List.length_cons, List.length_append]
      omega
    rw [hk, ← List.cons_append, List.take_left, ← hw]
    cases parseElements fuel rest <;> rfl

theorem fromBuffer_length_pos (e : List Nat) (b : Block) (h : Block.fromBuffer e = some b) :
    0 < e.length := by
  obtain ⟨r1, ht, -, -⟩ := fromBuffer_eq_some e b h
  have := readType_length e r1 _ ht
  omega

/-- Parsing a concatenation of whole elements gives back the elements. -/
theorem parseElements_join {α : Type} (enc : α → List Nat) (xs : List α) (blocks : List Block)
    (h : List.Forall₂ (fun x b => Block.fromBuffer (enc x) = some b) xs blocks) (fuel : Nat)
    (hf : xs.length ≤ fuel) : parseElements fuel (xs.map enc).flatten = some blocks := by
  induction h generalizing fuel with
  | nil => cases fuel <;> rfl
  | cons hx _ ih =>
    cases fuel with
    | zero => simp at hf
    | succ fuel =>
      rw [List.map_cons, List.flatten_cons, parseElements_append _ _ hx,
        ih fuel (by simpa using hf)]
      rfl

theorem length_le_length_join {α : Type} (enc : α → List Nat) (xs : List α)
    (blocks : List Block)
    (h : List.Forall₂ (fun x b => Block.fromBuffer (enc x) = some b) xs blocks) :
    xs.length ≤ ((xs.map enc).flatten).length := by
  induction h with
  | nil => simp
  | cons hx _ ih =>
    have := fromBuffer_length_pos _ _ hx
    rw [List.map_cons, List.flatten_cons, List.length_append, List.length_cons]
    omega

end TlvFacts

/-! ## More facts about `NameLsa::update` -/

section UpdateFrame

variable {Name : Type} [LinearOrder Name]

/-- The forward pass of `std::set_difference` on two equal ranges gives nothing,
whether the range is ascending or not. -/
theorem set_difference_self (l : List (Name × Nat)) : set_difference l l = [] := by
  induction l with
  | nil => rw [set_difference]
  | cons a l ih =>
    rw [set_difference, if_neg (by rw [tupleLess_irrefl]; exact Bool.noConfusion),
      if_neg (by rw [tupleLess_irrefl]; exact Bool.noConfusion), ih]

/-- The object after the loop over `namesToAdd`: the base fields are kept, the
cached wire is dropped as soon as there is one name, the pairs are inserted. -/
theorem addNames_fst (names : List (Name × Nat)) (st : NameLsa Name × Bool) :
    (addNames names st).1
      = ⟨st.1.toLsa, names.foldl (fun npl name => (npl.insert name).2) st.1.m_npl,
          if names.isEmpty then st.1.m_wire else none⟩ := by
  unfold addNames
  induction names generalizing st with
  | nil => rfl
  | cons a l ih =>
    rw [List.foldl_cons, ih]
    simp only [NameLsa.addName, List.foldl_cons, List.isEmpty_cons, Bool.false_eq_true,
      if_false]
    cases l <;> rfl

/-- The object after the loop over `namesToRemove`: the base fields are kept,
the cached wire is dropped as soon as there is one name, the pairs are erased. -/
theorem removeNames_fst (names : List (Name × Nat)) (st : NameLsa Name × Bool) :
    (removeNames names st).1
      = ⟨st.1.toLsa, names.foldl (fun npl name => (npl.eraseNameCost name).2) st.1.m_npl,
          if names.isEmpty then st.1.m_wire else none⟩ := by
  unfold removeNames
  induction names generalizing st with
  | nil => rfl
  | cons a l ih =>
    rw [List.foldl_cons, ih]
    simp only [NameLsa.removeName, List.foldl_cons, List.isEmpty_cons, Bool.false_eq_true,
      if_false]
    cases l <;> rfl

/-- The object after `NameLsa::update`, field by field. -/
theorem update_snd_fields (self lsa : NameLsa Name) :
    (self.update lsa).2
      = ⟨self.toLsa,
          (set_difference self.m_npl.getNameCosts lsa.m_npl.getNameCosts).foldl
            (fun npl name => (npl.eraseNameCost name).2)
            ((set_difference lsa.m_npl.getNameCosts self.m_npl.getNameCosts).foldl
              (fun npl name => (npl.insert name).2) self.m_npl),
          if (set_difference self.m_npl.getNameCosts lsa.m_npl.getNameCosts).isEmpty then
            (if (set_difference lsa.m_npl.getNameCosts self.m_npl.getNameCosts).isEmpty then
              self.m_wire else none)
          else none⟩ := by
  rw [update_snd, removeNames_fst, addNames_fst]

end UpdateFrame

/-! ## Claims about `NameLsa::update` -/

section UpdateClaims

variable {Name : Type} [LinearOrder Name]

/-- C1: for strictly ascending pair sequences of `self` and of the incoming LSA,
`NameLsa::update` returns as `added` exactly the incoming pairs absent from
`self`, as `removed` exactly the pairs of `self` absent from the incoming LSA,
both in ascending order, and `changed` is true iff one of the two lists is
non-empty. -/
theorem update_returns_set_differences (self lsa : NameLsa Name)
    (hs : StrictAscending self.m_npl.getNameCosts)
    (hi : StrictAscending lsa.m_npl.getNameCosts) :
    (self.update lsa).1.2.1
        = lsa.m_npl.getNameCosts.filter (fun p => decide (p ∉ self.m_npl.getNameCosts))
      ∧ (self.update lsa).1.2.2
        = self.m_npl.getNameCosts.filter (fun p => decide (p ∉ lsa.m_npl.getNameCosts))
      ∧ (∀ p, p ∈ (self.update lsa).1.2.1
          ↔ p ∈ lsa.m_npl.getNameCosts ∧ p ∉ self.m_npl.getNameCosts)
      ∧ (∀ p, p ∈ (self.update lsa).1.2.2
          ↔ p ∈ self.m_npl.getNameCosts ∧ p ∉ lsa.m_npl.getNameCosts)
      ∧ StrictAscending (self.update lsa).1.2.1
      ∧ StrictAscending (self.update lsa).1.2.2
      ∧ ((self.update lsa).1.1 = true
          ↔ (self.update lsa).1.2.1 ≠ [] ∨ (self.update lsa).1.2.2 ≠ []) := by
  rw [update_fst]
  simp only
  rw [set_difference_eq_filter _ _ hi hs, set_difference_eq_filter _ _ hs hi]
  refine ⟨rfl, rfl, ?_, ?_, hi.filter _, hs.filter _, ?_⟩
  · intro p; simp [List.mem_filter]
  · intro p; simp [List.mem_filter]
  · simp only [Bool.or_eq_true, Bool.not_eq_true', List.isEmpty_eq_false, ne_eq]

/-- The example of the spec: `self = {(a,1),(b,2)}`, incoming `{(b,2),(c,3)}`
gives `(true, [(c,3)], [(a,1)])`. -/
theorem update_returns_set_differences_witness :
    StrictAscending [('a', 1), ('b', 2)] ∧ StrictAscending [('b', 2), ('c', 3)]
      ∧ ((NameLsa.mk ⟨'r', 1, 0⟩ ⟨[('a', 1), ('b', 2)]⟩ none).update
          (NameLsa.mk ⟨'r', 2, 0⟩ ⟨[('b', 2), ('c', 3)]⟩ none)).1
        = (true, [('c', 3)], [('a', 1)]) := by
  have h := update_returns_set_differences
    (NameLsa.mk ⟨'r', 1, 0⟩ ⟨[('a', 1), ('b', 2)]⟩ none)
    (NameLsa.mk ⟨'r', 2, 0⟩ ⟨[('b', 2), ('c', 3)]⟩ none) (by decide) (by decide)
  refine ⟨by decide, by decide, ?_⟩
  obtain ⟨h1, h2, -, -, -, -, h3⟩ := h
  refine Prod.ext ?_ (Prod.ext ?_ ?_)
  · exact h3.mpr (Or.inl (by rw [h1]; decide))
  · rw [h1]; decide
  · rw [h2]; decide

/-- C2: for strictly ascending pair sequences of `self` and of the incoming LSA,
after `NameLsa::update` the pair set of `self` is exactly the pair set of the
incoming LSA. -/
theorem update_pair_set_eq_incoming (self lsa : NameLsa Name)
    (hs : StrictAscending self.m_npl.getNameCosts)
    (hi : StrictAscending lsa.m_npl.getNameCosts) :
    ∀ p, p ∈ (self.update lsa).2.m_npl.getNameCosts ↔ p ∈ lsa.m_npl.getNameCosts := by
  intro p
  rw [update_snd, mem_removeNames, mem_addNames, set_difference_eq_filter _ _ hi hs,
    set_difference_eq_filter _ _ hs hi]
  simp only [List.mem_filter, decide_eq_true_eq]
  tauto

/-- The example of the spec: after merging `{(b,2),(c,3)}` into `{(a,1),(b,2)}`
the pairs of `self` are those of the incoming LSA. -/
theorem update_pair_set_eq_incoming_witness :
    StrictAscending [('a', 1), ('b', 2)] ∧ StrictAscending [('b', 2), ('c', 3)]
      ∧ ∀ p, p ∈ ((NameLsa.mk ⟨'r', 1, 0⟩ ⟨[('a', 1), ('b', 2)]⟩ none).update
          (NameLsa.mk ⟨'r', 2, 0⟩ ⟨[('b', 2), ('c', 3)]⟩ none)).2.m_npl.getNameCosts
        ↔ p ∈ [('b', 2), ('c', 3)] :=
  ⟨by decide, by decide,
    update_pair_set_eq_incoming (NameLsa.mk ⟨'r', 1, 0⟩ ⟨[('a', 1), ('b', 2)]⟩ none)
      (NameLsa.mk ⟨'r', 2, 0⟩ ⟨[('b', 2), ('c', 3)]⟩ none) (by decide) (by decide)⟩

end UpdateClaims

/-! ## Claims about `NameLsa::wireDecode` -/

section DecodeClaims

variable {Name : Type} [LinearOrder Name]

theorem wireDecode_m_wire (c : SubCodecs Name) (t : TlvTypes) (self : NameLsa Name)
    (wire : Block) : (self.wireDecode c t wire).2.m_wire = some wire := by
  unfold NameLsa.wireDecode
  simp only
  split
  · rfl
  · split
    · rfl
    · rfl
    · split
      · split
        · rfl
        · split <;> rfl
      · rfl

/-- C4: when `NameLsa::wireDecode` succeeds on a block, a following
`wireEncode()` on the decoded object returns that very block, bytes included,
whatever the order of its `PrefixCost` children. -/
theorem wireEncode_after_wireDecode (c : SubCodecs Name) (t : TlvTypes) (self : NameLsa Name)
    (wire : Block) (_hok : (self.wireDecode c t wire).1 = .ok ()) :
    ((self.wireDecode c t wire).2.wireEncode c t).1 = some wire
      ∧ (((self.wireDecode c t wire).2.wireEncode c t).1.map Block.wire) = some wire.wire := by
  have hw := wireDecode_m_wire c t self wire
  have : ((self.wireDecode c t wire).2.wireEncode c t).1 = some wire := by
    unfold NameLsa.wireEncode
    rw [hw]
  exact ⟨this, by rw [this]; rfl⟩

/-- A block whose children are not in ascending order decodes and is returned
unchanged by the next `wireEncode()`. -/
theorem wireEncode_after_wireDecode_witness :
    (sampleEmptyLsa.wireDecode sampleCodecs sampleTypes sampleUnsortedWire).1 = .ok ()
      ∧ (sampleEmptyLsa.wireDecode sampleCodecs sampleTypes
            sampleUnsortedWire).2.m_npl.getNameCosts = [(1, 5), (2, 5)]
      ∧ ((sampleEmptyLsa.wireDecode sampleCodecs sampleTypes sampleUnsortedWire).2.wireEncode
            sampleCodecs sampleTypes).1 = some sampleUnsortedWire :=
  ⟨by decide, by decide,
    (wireEncode_after_wireDecode sampleCodecs sampleTypes sampleEmptyLsa sampleUnsortedWire
      (by decide)).1⟩

theorem decodeNames_ok_of_all (c : SubCodecs Name) (t : TlvTypes) (rest : List Block)
    (npl : NamePrefixList Name)
    (hpc : ∀ e ∈ rest, e.type = t.PrefixCost → ∃ nc, c.prefixCostWireDecode e = .ok nc)
    (hall : ∀ e ∈ rest, e.type = t.PrefixCost) :
    ∃ npl1, decodeNames c t rest npl = .ok npl1 := by
  induction rest generalizing npl with
  | nil => exact ⟨npl, rfl⟩
  | cons val rest ih =>
    obtain ⟨nc, hnc⟩ := hpc val (List.mem_cons_self _ _) (hall val (List.mem_cons_self _ _))
    unfold decodeNames
    rw [if_pos (hall val (List.mem_cons_self _ _)), hnc]
    exact ih _ (fun e he => hpc e (List.mem_cons_of_mem _ he))
      (fun e he => hall e (List.mem_cons_of_mem _ he))

theorem decodeNames_bad_child (c : SubCodecs Name) (t : TlvTypes) (pre post : List Block)
    (bad : Block) (npl : NamePrefixList Name)
    (hpc : ∀ e ∈ pre, e.type = t.PrefixCost → ∃ nc, c.prefixCostWireDecode e = .ok nc)
    (hpre : ∀ e ∈ pre, e.type = t.PrefixCost) (hbad : bad.type ≠ t.PrefixCost) :
    decodeNames c t (pre ++ bad :: post) npl
      = .error (.nameLsaError (.unexpectedType "Name" bad.type)) := by
  induction pre generalizing npl with
  | nil =>
    rw [List.nil_append]
    unfold decodeNames
    rw [if_neg hbad]
  | cons val pre ih =>
    obtain ⟨nc, hnc⟩ := hpc val (List.mem_cons_self _ _) (hpre val (List.mem_cons_self _ _))
    rw [List.cons_append]
    unfold decodeNames
    rw [if_pos (hpre val (List.mem_cons_self _ _)), hnc]
    exact ih _ (fun e he => hpc e (List.mem_cons_of_mem _ he))
      (fun e he => hpre e (List.mem_cons_of_mem _ he))

/-- A list of elements either has only `PrefixCost` elements or splits at its
first element of another type. -/
theorem all_or_first_bad (t : TlvTypes) (rest : List Block) :
    (∀ e ∈ rest, e.type = t.PrefixCost)
      ∨ ∃ pre bad post, rest = pre ++ bad :: post ∧ (∀ e ∈ pre, e.type = t.PrefixCost)
          ∧ bad.type ≠ t.PrefixCost := by
  induction rest with
  | nil => exact Or.inl (fun e he => absurd he (List.not_mem_nil e))
  | cons val rest ih =>
    by_cases hv : val.type = t.PrefixCost
    · rcases ih with h | ⟨pre, bad, post, e, hp, hb⟩
      · left
        intro x hx
        rcases List.mem_cons.mp hx with rfl | hx
        · exact hv
        · exact h x hx
      · right
        refine ⟨val :: pre, bad, post, by rw [e, List.cons_append], ?_, hb⟩
        intro x hx
        rcases List.mem_cons.mp hx with rfl | hx
        · exact hv
        · exact hp x hx
    · exact Or.inr ⟨[], val, rest, rfl, fun e he => absurd he (List.not_mem_nil e), hv⟩

/-- The outcome of `NameLsa::wireDecode` once the block has the right type, has
parsed, starts with a decodable `Lsa` element: it is the outcome of the loop over
the other elements. -/
theorem wireDecode_fst_of_lsa (c : SubCodecs Name) (t : TlvTypes) (self : NameLsa Name)
    (wire val : Block) (rest : List Block) (base : Lsa Name)
    (htype : wire.type = t.NameLsa) (hparse : wire.parse = some (val :: rest))
    (hval : val.type = t.Lsa) (hbase : c.lsaWireDecode val = .ok base) :
    (self.wireDecode c t wire).1 = (decodeNames c t rest ⟨[]⟩).map (fun _ => ()) := by
  unfold NameLsa.wireDecode
  simp only [htype, hparse, hval, hbase, ne_eq, not_true_eq_false, if_false, if_true]
  cases decodeNames c t rest ⟨[]⟩ <;> rfl

/-- C5: on a block that parses and whose `Lsa` and `PrefixCost` children are
decodable, `NameLsa::wireDecode` succeeds iff the outer type is `NameLsa`, the
first child exists and is an `Lsa`, and every later child is a `PrefixCost`;
otherwise it throws a `NameLsa::Error`: a wrong outer type is reported with that
type, a missing or misplaced `Lsa` with the message, a bad child with the type
of the first such child.  With `Lsa` and `PrefixCost` distinct types, a first
child `PrefixCost` and a second `Lsa` child are rejected. -/
theorem wireDecode_accepts_iff (c : SubCodecs Name) (t : TlvTypes) (self : NameLsa Name)
    (wire : Block) (elements : List Block) (hparse : wire.parse = some elements)
    (hlsa : ∀ e ∈ elements, e.type = t.Lsa → ∃ base, c.lsaWireDecode e = .ok base)
    (hpc : ∀ e ∈ elements, e.type = t.PrefixCost → ∃ nc, c.prefixCostWireDecode e = .ok nc) :
    ((self.wireDecode c t wire).1 = .ok ()
        ↔ wire.type = t.NameLsa
          ∧ ∃ val rest, elements = val :: rest ∧ val.type = t.Lsa
              ∧ ∀ e ∈ rest, e.type = t.PrefixCost)
      ∧ ((self.wireDecode c t wire).1 ≠ .ok ()
          → ∃ args, (self.wireDecode c t wire).1 = .error (.nameLsaError args))
      ∧ (wire.type ≠ t.NameLsa
          → (self.wireDecode c t wire).1
              = .error (.nameLsaError (.unexpectedType "NameLsa" wire.type)))
      ∧ (wire.type = t.NameLsa → elements = []
          → (self.wireDecode c t wire).1
              = .error (.nameLsaError (.what "Missing required Lsa field")))
      ∧ (wire.type = t.NameLsa → ∀ val rest, elements = val :: rest → val.type ≠ t.Lsa
          → (self.wireDecode c t wire).1
              = .error (.nameLsaError (.what "Missing required Lsa field")))
      ∧ (wire.type = t.NameLsa → ∀ val pre bad post, elements = val :: (pre ++ bad :: post)
          → val.type = t.Lsa → (∀ e ∈ pre, e.type = t.PrefixCost) → bad.type ≠ t.PrefixCost
          → (self.wireDecode c t wire).1
              = .error (.nameLsaError (.unexpectedType "Name" bad.type)))
      ∧ (t.Lsa ≠ t.PrefixCost → ∀ val rest, elements = val :: rest
          → (val.type = t.PrefixCost ∨ ∃ e ∈ rest, e.type = t.Lsa)
          → (self.wireDecode c t wire).1 ≠ .ok ()) := by
  -- the three ways to fail
  have hA : wire.type ≠ t.NameLsa → (self.wireDecode c t wire).1
      = .error (.nameLsaError (.unexpectedType "NameLsa" wire.type)) := by
    intro h
    unfold NameLsa.wireDecode
    simp only [ne_eq, h, not_false_eq_true, if_true]
  have hB1 : wire.type = t.NameLsa → elements = [] → (self.wireDecode c t wire).1
      = .error (.nameLsaError (.what "Missing required Lsa field")) := by
    intro h he
    subst he
    unfold NameLsa.wireDecode
    simp only [h, hparse, ne_eq, not_true_eq_false, if_false]
  have hB2 : wire.type = t.NameLsa → ∀ val rest, elements = val :: rest → val.type ≠ t.Lsa
      → (self.wireDecode c t wire).1
        = .error (.nameLsaError (.what "Missing required Lsa field")) := by
    intro h val rest he hv
    subst he
    unfold NameLsa.wireDecode
    simp only [h, hparse, hv, ne_eq, not_true_eq_false, if_false]
  have hC : wire.type = t.NameLsa → ∀ val pre bad post, elements = val :: (pre ++ bad :: post)
      → val.type = t.Lsa → (∀ e ∈ pre, e.type = t.PrefixCost) → bad.type ≠ t.PrefixCost
      → (self.wireDecode c t wire).1
        = .error (.nameLsaError (.unexpectedType "Name" bad.type)) := by
    intro h val pre bad post he hv hp hb
    subst he
    obtain ⟨base, hbase⟩ := hlsa val (List.mem_cons_self _ _) hv
    rw [wireDecode_fst_of_lsa c t self wire val _ base h hparse hv hbase,
      decodeNames_bad_child c t pre post bad _
        (fun e he => hpc e (List.mem_cons_of_mem _ (List.mem_append_left _ he))) hp hb]
    rfl
  have hOK : wire.type = t.NameLsa → ∀ val rest, elements = val :: rest → val.type = t.Lsa
      → (∀ e ∈ rest, e.type = t.PrefixCost) → (self.wireDecode c t wire).1 = .ok () := by
    intro h val rest he hv hall
    subst he
    obtain ⟨base, hbase⟩ := hlsa val (List.mem_cons_self _ _) hv
    obtain ⟨npl1, hnpl⟩ := decodeNames_ok_of_all c t rest ⟨[]⟩
      (fun e he => hpc e (List.mem_cons_of_mem _ he)) hall
    rw [wireDecode_fst_of_lsa c t self wire val _ base h hparse hv hbase, hnpl]
    rfl
  -- every block falls in one of the four cases
  have hcases : (wire.type = t.NameLsa
        ∧ ∃ val rest, elements = val :: rest ∧ val.type = t.Lsa
            ∧ ∀ e ∈ rest, e.type = t.PrefixCost)
      ∨ ∃ args, (self.wireDecode c t wire).1 = .error (.nameLsaError args) := by
    by_cases h : wire.type = t.NameLsa
    · cases helts : elements with
      | nil => exact Or.inr ⟨_, hB1 h helts⟩
      | cons val rest =>
        by_cases hv : val.type = t.Lsa
        · rcases all_or_first_bad t rest with hall | ⟨pre, bad, post, e, hp, hb⟩
          · exact Or.inl ⟨h, val, rest, rfl, hv, hall⟩
          · exact Or.inr ⟨_, hC h val pre bad post (by rw [helts, e]) hv hp hb⟩
        · exact Or.inr ⟨_, hB2 h val rest helts hv⟩
    · exact Or.inr ⟨_, hA h⟩
  have hiff : (self.wireDecode c t wire).1 = .ok ()
      ↔ wire.type = t.NameLsa
        ∧ ∃ val rest, elements = val :: rest ∧ val.type = t.Lsa
            ∧ ∀ e ∈ rest, e.type = t.PrefixCost := by
    constructor
    · intro hok
      rcases hcases with h | ⟨args, h⟩
      · exact h
      · rw [h] at hok; exact Except.noConfusion hok
    · rintro ⟨h, val, rest, he, hv, hall⟩
      exact hOK h val rest he hv hall
  refine ⟨hiff, ?_, hA, hB1, hB2, hC, ?_⟩
  · intro hne
    rcases hcases with h | h
    · exact absurd (hiff.mpr h) hne
    · exact h
  · intro hdist val rest he hor hok
    obtain ⟨-, val1, rest1, he1, hv1, hall1⟩ := hiff.mp hok
    rw [he] at he1
    obtain ⟨rfl, rfl⟩ := List.cons.inj he1
    rcases hor with hv | ⟨e, hmem, hety⟩
    · exact hdist (hv1.symm.trans hv)
    · exact hdist (hety.symm.trans (hall1 e hmem))

/-- The sample block parses into three decodable children, and the acceptance
condition holds for it. -/
theorem wireDecode_accepts_iff_witness :
    sampleUnsortedWire.parse = some sampleElements
      ∧ (∀ e ∈ sampleElements, e.type = sampleTypes.Lsa
          → ∃ base, sampleCodecs.lsaWireDecode e = .ok base)
      ∧ (∀ e ∈ sampleElements, e.type = sampleTypes.PrefixCost
          → ∃ nc, sampleCodecs.prefixCostWireDecode e = .ok nc)
      ∧ ((sampleEmptyLsa.wireDecode sampleCodecs sampleTypes sampleUnsortedWire).1 = .ok ()
          ↔ sampleUnsortedWire.type = sampleTypes.NameLsa
            ∧ ∃ val rest, sampleElements = val :: rest ∧ val.type = sampleTypes.Lsa
                ∧ ∀ e ∈ rest, e.type = sampleTypes.PrefixCost) := by
  have h1 : sampleUnsortedWire.parse = some sampleElements := by decide
  have h2 : ∀ e ∈ sampleElements, e.type = sampleTypes.Lsa
      → ∃ base, sampleCodecs.lsaWireDecode e = .ok base := by
    intro e he hty
    simp only [sampleElements, List.mem_cons, List.mem_singleton, List.not_mem_nil,
      or_false] at he
    rcases he with rfl | rfl | rfl
    · exact ⟨_, rfl⟩
    · exact absurd hty (by decide)
    · exact absurd hty (by decide)
  have h3 : ∀ e ∈ sampleElements, e.type = sampleTypes.PrefixCost
      → ∃ nc, sampleCodecs.prefixCostWireDecode e = .ok nc := by
    intro e he hty
    simp only [sampleElements, List.mem_cons, List.mem_singleton, List.not_mem_nil,
      or_false] at he
    rcases he with rfl | rfl | rfl
    · exact absurd hty (by decide)
    · exact ⟨_, rfl⟩
    · exact ⟨_, rfl⟩
  exact ⟨h1, h2, h3,
    (wireDecode_accepts_iff sampleCodecs sampleTypes sampleEmptyLsa sampleUnsortedWire
      sampleElements h1 h2 h3).1⟩

end DecodeClaims

/-! ## Claims about the round trip through the wire -/

section RoundTrip

variable {Name : Type} [LinearOrder Name]

omit [LinearOrder Name] in
theorem encodeNames_eq (c : SubCodecs Name) (names : List (Name × Nat)) (n : Nat)
    (block : List Nat) :
    encodeNames c names (n, block)
      = (n + ((names.map c.prefixCostWireEncode).flatten).length,
         (names.map c.prefixCostWireEncode).flatten ++ block) := by
  unfold encodeNames
  rw [List.foldl_reverse]
  induction names with
  | nil => simp
  | cons a l ih =>
    rw [List.foldr_cons, ih]
    simp only [List.map_cons, List.flatten_cons, List.length_append, List.append_assoc,
      Prod.mk.injEq, and_true]
    omega

omit [LinearOrder Name] in
theorem wireEncodeImpl_eq (c : SubCodecs Name) (t : TlvTypes) (self : NameLsa Name) :
    self.wireEncodeImpl c t []
      = ((varNumber t.NameLsa ++ (varNumber (self.encodedValue c).length
            ++ self.encodedValue c)).length,
         varNumber t.NameLsa ++ (varNumber (self.encodedValue c).length
            ++ self.encodedValue c)) := by
  unfold NameLsa.wireEncodeImpl prependVarNumber NameLsa.encodedValue NamePrefixList.getNameCosts
  simp only [encodeNames_eq, List.append_nil, Nat.zero_add, List.length_append, Prod.mk.injEq]
  have e : ((self.m_npl.m_nameCosts.map c.prefixCostWireEncode).flatten).length
      + (c.lsaWireEncode self.toLsa).length
      = (c.lsaWireEncode self.toLsa).length
        + ((self.m_npl.m_nameCosts.map c.prefixCostWireEncode).flatten).length := by omega
  rw [e]
  exact ⟨by omega, rfl⟩

theorem readType_varNumber (n : Nat) (rest : List Nat) (h0 : 0 < n) (h1 : n ≤ 4294967295) :
    readType (varNumber n ++ rest) = some (n, rest) := by
  unfold readType
  rw [readVarNumber_varNumber n rest (by omega)]
  simp only
  rw [if_neg (by omega)]

omit [LinearOrder Name] in
/-- A fresh encoding is a block of type `NameLsa` whose value is the encoded
content. -/
theorem wireEncode_fresh (c : SubCodecs Name) (t : TlvTypes) (x : NameLsa Name)
    (hwire : x.m_wire = none) (htype : 0 < t.NameLsa ∧ t.NameLsa ≤ 4294967295)
    (hsize : (x.wireEncodeImpl c t []).1 < 2 ^ 64) :
    (x.wireEncode c t).1
      = some ⟨t.NameLsa, (x.wireEncodeImpl c t []).2, x.encodedValue c⟩ := by
  have hlen : (x.encodedValue c).length < 2 ^ 64 := by
    rw [wireEncodeImpl_eq] at hsize
    simp only [List.length_append] at hsize
    omega
  unfold NameLsa.wireEncode
  rw [hwire]
  simp only
  have hb : Block.fromBuffer (x.wireEncodeImpl c t []).2
      = some ⟨t.NameLsa, (x.wireEncodeImpl c t []).2, x.encodedValue c⟩ := by
    unfold Block.fromBuffer
    rw [wireEncodeImpl_eq]
    simp only
    rw [readType_varNumber _ _ htype.1 htype.2]
    simp only
    rw [← List.append_nil (varNumber _ ++ NameLsa.encodedValue c x), List.append_assoc,
      readVarNumber_varNumber _ _ hlen]
    simp
  rw [hb]

theorem exists_forall₂ {α β : Type} (P : α → β → Prop) (xs : List α)
    (h : ∀ x ∈ xs, ∃ b, P x b) : ∃ bs, List.Forall₂ P xs bs := by
  induction xs with
  | nil => exact ⟨[], List.Forall₂.nil⟩
  | cons a l ih =>
    obtain ⟨b, hb⟩ := h a (List.mem_cons_self _ _)
    obtain ⟨bs, hbs⟩ := ih (fun x hx => h x (List.mem_cons_of_mem _ hx))
    exact ⟨b :: bs, List.Forall₂.cons hb hbs⟩

theorem decodeNames_of_decodable (c : SubCodecs Name) (t : TlvTypes)
    (names : List (Name × Nat)) (blocks : List Block)
    (h : List.Forall₂ (fun p b => b.type = t.PrefixCost ∧ c.prefixCostWireDecode b = .ok p)
      names blocks) (npl : NamePrefixList Name) :
    ∃ npl1, decodeNames c t blocks npl = .ok npl1
      ∧ ∀ x, x ∈ npl1.getNameCosts ↔ x ∈ names ∨ x ∈ npl.getNameCosts := by
  induction h generalizing npl with
  | nil => exact ⟨npl, rfl, by simp⟩
  | cons hx _ ih =>
    rename_i p b ps bs _
    obtain ⟨npl1, h1, h2⟩ := ih (npl.insert p).2
    refine ⟨npl1, ?_, ?_⟩
    · unfold decodeNames
      rw [if_pos hx.1, hx.2]
      exact h1
    · intro x
      rw [h2]
      simp only [NamePrefixList.insert, NamePrefixList.getNameCosts, mem_insertEntry,
        List.mem_cons]
      tauto

/-- C3: encoding a `NameLsa` that has no cached wire and decoding the result
succeeds and gives back the origin router, the sequence number, the expiration
and the set of (name, cost) pairs, provided the nested codecs round-trip on the
parts of the object, `NameLsa` is a legal TLV-TYPE and the size fits 64 bits. -/
theorem wireDecode_wireEncode_roundtrip (c : SubCodecs Name) (t : TlvTypes) (x : NameLsa Name)
    (hwire : x.m_wire = none) (htype : 0 < t.NameLsa ∧ t.NameLsa ≤ 4294967295)
    (hsize : (x.wireEncodeImpl c t []).1 < 2 ^ 64)
    (hlsa : ∃ b, Block.fromBuffer (c.lsaWireEncode x.toLsa) = some b ∧ b.type = t.Lsa
      ∧ c.lsaWireDecode b = .ok x.toLsa)
    (hpc : ∀ p ∈ x.m_npl.getNameCosts, ∃ b,
      Block.fromBuffer (c.prefixCostWireEncode p) = some b ∧ b.type = t.PrefixCost
        ∧ c.prefixCostWireDecode b = .ok p) :
    ∃ wire, (x.wireEncode c t).1 = some wire ∧ ∀ y : NameLsa Name,
      (y.wireDecode c t wire).1 = .ok ()
        ∧ (y.wireDecode c t wire).2.m_originRouter = x.m_originRouter
        ∧ (y.wireDecode c t wire).2.m_seqNo = x.m_seqNo
        ∧ (y.wireDecode c t wire).2.m_expirationTimePoint = x.m_expirationTimePoint
        ∧ ∀ p, p ∈ (y.wireDecode c t wire).2.m_npl.getNameCosts
            ↔ p ∈ x.m_npl.getNameCosts := by
  refine ⟨_, wireEncode_fresh c t x hwire htype hsize, ?_⟩
  intro y
  obtain ⟨lb, hlb, hlty, hldec⟩ := hlsa
  obtain ⟨blocks, hblocks⟩ := exists_forall₂ _ _ hpc
  have hparse1 : List.Forall₂ (fun p b => Block.fromBuffer (c.prefixCostWireEncode p) = some b)
      x.m_npl.m_nameCosts blocks := hblocks.imp (fun _ _ h => h.1)
  have hdec1 : List.Forall₂
      (fun p b => b.type = t.PrefixCost ∧ c.prefixCostWireDecode b = .ok p)
      x.m_npl.m_nameCosts blocks := hblocks.imp (fun _ _ h => h.2)
  obtain ⟨npl1, hnpl, hmem⟩ := decodeNames_of_decodable c t _ _ hdec1 ⟨[]⟩
  have hpos := fromBuffer_length_pos _ _ hlb
  have hle := length_le_length_join _ _ _ hparse1
  have hparse : Block.parse ⟨t.NameLsa, (x.wireEncodeImpl c t []).2, x.encodedValue c⟩
      = some (lb :: blocks) := by
    unfold Block.parse
    simp only
    obtain ⟨fuel, hfuel⟩ : ∃ fuel, (x.encodedValue c).length = fuel + 1 :=
      ⟨(x.encodedValue c).length - 1, by
        unfold NameLsa.encodedValue; rw [List.length_append]; omega⟩
    rw [hfuel]
    unfold NameLsa.encodedValue at hfuel ⊢
    rw [parseElements_append _ _ hlb, parseElements_join _ _ _ hparse1]
    · rfl
    · rw [List.length_append] at hfuel
      omega
  unfold NameLsa.wireDecode
  simp only [hparse, hlty, hldec, hnpl, ne_eq, not_true_eq_false, if_false, if_true]
  refine ⟨trivial, trivial, trivial, trivial, ?_⟩
  intro p
  rw [hmem]
  simp [NamePrefixList.getNameCosts]

/-- The sample object with pairs `(1,5)` and `(2,5)` survives the round trip. -/
theorem wireDecode_wireEncode_roundtrip_witness :
    ∃ wire, (sampleLsa.wireEncode sampleCodecs sampleTypes).1 = some wire
      ∧ ∀ y : NameLsa Nat,
        (y.wireDecode sampleCodecs sampleTypes wire).1 = .ok ()
          ∧ (y.wireDecode sampleCodecs sampleTypes wire).2.m_originRouter = 7
          ∧ (y.wireDecode sampleCodecs sampleTypes wire).2.m_seqNo = 1
          ∧ (y.wireDecode sampleCodecs sampleTypes wire).2.m_expirationTimePoint = 0
          ∧ ∀ p, p ∈ (y.wireDecode sampleCodecs sampleTypes wire).2.m_npl.getNameCosts
              ↔ p ∈ [(1, 5), (2, 5)] :=
  wireDecode_wireEncode_roundtrip sampleCodecs sampleTypes sampleLsa rfl (by decide)
    (by decide) ⟨⟨128, [128, 3, 7, 1, 0], [7, 1, 0]⟩, by decide, rfl, rfl⟩
    (by
      intro p hp
      simp only [sampleLsa, NamePrefixList.getNameCosts, List.mem_cons, List.mem_singleton,
        List.not_mem_nil, or_false] at hp
      rcases hp with rfl | rfl
      · exact ⟨⟨150, [150, 2, 1, 5], [1, 5]⟩, by decide, rfl, rfl⟩
      · exact ⟨⟨150, [150, 2, 2, 5], [2, 5]⟩, by decide, rfl, rfl⟩)

end RoundTrip

/-! ## Claims about the prefix update commands -/

section CommandClaims

variable {Name : Type} [LinearOrder Name]

theorem advertise_fst (env : CommandEnv Name) (npl : NamePrefixList Name)
    (parameters : ControlParameters Name) :
    (advertiseAndInsertPrefix env npl parameters).1
      = (npl.insert (advertisedPair parameters)).2 := by
  unfold advertiseAndInsertPrefix advertisedPair
  dsimp only
  split_ifs <;> rfl

theorem withdraw_fst (env : CommandEnv Name) (npl : NamePrefixList Name)
    (parameters : ControlParameters Name) :
    (withdrawAndRemovePrefix env npl parameters).1 = (npl.erase parameters.getName).2 := by
  unfold withdrawAndRemovePrefix
  dsimp only
  split_ifs <;> rfl

theorem insertEntry_fst_of_not_mem (p : Name × Nat) (l : List (Name × Nat)) (h : p ∉ l) :
    (NamePrefixList.insertEntry p l).1 = true := by
  induction l with
  | nil => rfl
  | cons q l ih =>
    unfold NamePrefixList.insertEntry
    by_cases h1 : tupleLess p q = true
    · simp [h1]
    · by_cases h2 : tupleLess q p = true
      · simp only [h1, h2, if_true, if_false, Bool.false_eq_true]
        exact ih (fun hm => h (List.mem_cons_of_mem _ hm))
      · have e : p = q := eq_of_not_tupleLess (by simpa using h1) (by simpa using h2)
        exact absurd (e ▸ List.mem_cons_self _ _) h

theorem uint64ToDouble_zero : uint64ToDouble 0 = 0 := by decide

/-- Below `2 ^ 53` the conversion to `double` is exact. -/
theorem uint64ToDouble_of_lt (x : Nat) (h : x < 2 ^ 53) : uint64ToDouble x = x := by
  have h64 : x % 2 ^ 64 = x := Nat.mod_eq_of_lt (by omega)
  have he : excessBits 11 x = 0 := by
    unfold excessBits
    rw [if_pos h]
  unfold uint64ToDouble
  simp only [h64, he, Nat.pow_zero, Nat.div_one, Nat.mod_one, Nat.mul_zero, Nat.mul_one]
  rw [if_pos (by omega)]

omit [LinearOrder Name] in
theorem advertisedPair_without_cost (name : Name) (flags : Option Nat) :
    advertisedPair (⟨name, none, flags⟩ : ControlParameters Name) = (name, 0) := by
  show (name, uint64ToDouble 0) = (name, 0)
  rw [uint64ToDouble_zero]

omit [LinearOrder Name] in
theorem advertisedPair_cost_zero (name : Name) (flags : Option Nat) :
    advertisedPair (⟨name, some 0, flags⟩ : ControlParameters Name) = (name, 0) := by
  show (name, uint64ToDouble 0) = (name, 0)
  rw [uint64ToDouble_zero]

/-- The conversion to `double` at the first values that it changes, and at the
largest `uint64_t`: `2^53 + 1` goes down to `2^53`, `2^53 + 3` up to `2^53 + 4`,
`2^64 - 1` up to `2^64`. -/
theorem uint64ToDouble_examples :
    uint64ToDouble 9007199254740992 = 9007199254740992
      ∧ uint64ToDouble 9007199254740993 = 9007199254740992
      ∧ uint64ToDouble 9007199254740994 = 9007199254740994
      ∧ uint64ToDouble 9007199254740995 = 9007199254740996
      ∧ uint64ToDouble 18446744073709551615 = 18446744073709551616 := by
  decide

omit [LinearOrder Name] in
theorem advertisedPair_of_lt (name : Name) (c : Nat) (flags : Option Nat) (h : c < 2 ^ 53) :
    advertisedPair (⟨name, some c, flags⟩ : ControlParameters Name) = (name, c) := by
  show (name, uint64ToDouble c) = (name, c)
  rw [uint64ToDouble_of_lt c h]

/-- C6: `advertiseAndInsertPrefix` emits exactly one response.  When the insert
added an entry it is 200 "OK" without a persistence request, 205 "OK" with a
request and a hook that succeeds, 406 "Failed to open configuration file." with
a request and a hook that fails; when the insert was a no-op it is 204 "Prefix
is already advertised/inserted.", 205 "OK", or 406 "Prefix is already
Saved/Failed to open configuration file." in the same three situations. -/
theorem advertise_response_table (env : CommandEnv Name) (npl : NamePrefixList Name)
    (parameters : ControlParameters Name) :
    (responses (advertiseAndInsertPrefix env npl parameters).2).length = 1
      ∧ ((npl.insert (advertisedPair parameters)).1 = true
          → persistRequested parameters = false
          → responses (advertiseAndInsertPrefix env npl parameters).2
              = [⟨200, "OK", env.wireEncode parameters⟩])
      ∧ ((npl.insert (advertisedPair parameters)).1 = true
          → persistRequested parameters = true
          → env.afterAdvertise parameters.getName = some true
          → responses (advertiseAndInsertPrefix env npl parameters).2
              = [⟨205, "OK", env.wireEncode parameters⟩])
      ∧ ((npl.insert (advertisedPair parameters)).1 = true
          → persistRequested parameters = true
          → env.afterAdvertise parameters.getName = some false
          → responses (advertiseAndInsertPrefix env npl parameters).2
              = [⟨406, "Failed to open configuration file.", env.wireEncode parameters⟩])
      ∧ ((npl.insert (advertisedPair parameters)).1 = false
          → persistRequested parameters = false
          → responses (advertiseAndInsertPrefix env npl parameters).2
              = [⟨204, "Prefix is already advertised/inserted.", env.wireEncode parameters⟩])
      ∧ ((npl.insert (advertisedPair parameters)).1 = false
          → persistRequested parameters = true
          → env.afterAdvertise parameters.getName = some true
          → responses (advertiseAndInsertPrefix env npl parameters).2
              = [⟨205, "OK", env.wireEncode parameters⟩])
      ∧ ((npl.insert (advertisedPair parameters)).1 = false
          → persistRequested parameters = true
          → env.afterAdvertise parameters.getName = some false
          → responses (advertiseAndInsertPrefix env npl parameters).2
              = [⟨406, "Prefix is already Saved/Failed to open configuration file.",
                  env.wireEncode parameters⟩]) := by
  unfold advertiseAndInsertPrefix persistRequested advertisedPair
  dsimp only
  generalize npl.insert (parameters.getName,
    uint64ToDouble (if parameters.hasCost then parameters.getCost else 0)) = inserted
  generalize (parameters.hasFlags && parameters.getFlags == PREFIX_FLAG) = persist
  generalize env.afterAdvertise parameters.getName = outcome
  obtain ⟨added, npl1⟩ := inserted
  cases added <;> cases persist <;> rcases outcome with _ | _ | _ <;>
    simp [responses, Event.response?]

/-- A new prefix, persistence requested, failing hook: the one response is 406
"Failed to open configuration file.".  And a request with cost `2^53 + 1` into a
list that holds the name with cost `2^53`: the converted cost is `2^53`, the
insert is a repeat and the response is 204. -/
theorem advertise_response_table_witness :
    (((⟨[]⟩ : NamePrefixList Nat).insert (advertisedPair ⟨3, some 2, some 1⟩)).1 = true
        ∧ persistRequested (⟨3, some 2, some 1⟩ : ControlParameters Nat) = true
        ∧ failingEnv.afterAdvertise 3 = some false
        ∧ responses (advertiseAndInsertPrefix failingEnv ⟨[]⟩ ⟨3, some 2, some 1⟩).2
            = [⟨406, "Failed to open configuration file.", [3, 2, 1]⟩])
      ∧ (((⟨[(3, 9007199254740992)]⟩ : NamePrefixList Nat).insert
            (advertisedPair ⟨3, some 9007199254740993, none⟩)).1 = false
        ∧ persistRequested (⟨3, some 9007199254740993, none⟩ : ControlParameters Nat) = false
        ∧ responses (advertiseAndInsertPrefix failingEnv ⟨[(3, 9007199254740992)]⟩
              ⟨3, some 9007199254740993, none⟩).2
            = [⟨204, "Prefix is already advertised/inserted.", [3, 9007199254740993, 0]⟩]) :=
  ⟨⟨by decide, by decide, rfl,
      (advertise_response_table failingEnv ⟨[]⟩ ⟨3, some 2, some 1⟩).2.2.2.1
        (by decide) (by decide) rfl⟩,
    ⟨by decide, by decide,
      (advertise_response_table failingEnv ⟨[(3, 9007199254740992)]⟩
        ⟨3, some 9007199254740993, none⟩).2.2.2.2.1 (by decide) (by decide)⟩⟩

/-- C7: `withdrawAndRemovePrefix` emits exactly one response.  When the erase
removed the prefix it is 200 "OK" without a persistence request, 205 "OK" with a
request and a hook that succeeds, 406 "Failed to open configuration file." with
a request and a hook that fails; when the prefix was absent it is 204 "Prefix is
already withdrawn/removed.", 205 "OK", or 406 "Prefix is already deleted/Failed
to open configuration file." in the same three situations. -/
theorem withdraw_response_table (env : CommandEnv Name) (npl : NamePrefixList Name)
    (parameters : ControlParameters Name) :
    (responses (withdrawAndRemovePrefix env npl parameters).2).length = 1
      ∧ ((npl.erase parameters.getName).1 = true
          → persistRequested parameters = false
          → responses (withdrawAndRemovePrefix env npl parameters).2
              = [⟨200, "OK", env.wireEncode parameters⟩])
      ∧ ((npl.erase parameters.getName).1 = true
          → persistRequested parameters = true
          → env.afterWithdraw parameters.getName = some true
          → responses (withdrawAndRemovePrefix env npl parameters).2
              = [⟨205, "OK", env.wireEncode parameters⟩])
      ∧ ((npl.erase parameters.getName).1 = true
          → persistRequested parameters = true
          → env.afterWithdraw parameters.getName = some false
          → responses (withdrawAndRemovePrefix env npl parameters).2
              = [⟨406, "Failed to open configuration file.", env.wireEncode parameters⟩])
      ∧ ((npl.erase parameters.getName).1 = false
          → persistRequested parameters = false
          → responses (withdrawAndRemovePrefix env npl parameters).2
              = [⟨204, "Prefix is already withdrawn/removed.", env.wireEncode parameters⟩])
      ∧ ((npl.erase parameters.getName).1 = false
          → persistRequested parameters = true
          → env.afterWithdraw parameters.getName = some true
          → responses (withdrawAndRemovePrefix env npl parameters).2
              = [⟨205, "OK", env.wireEncode parameters⟩])
      ∧ ((npl.erase parameters.getName).1 = false
          → persistRequested parameters = true
          → env.afterWithdraw parameters.getName = some false
          → responses (withdrawAndRemovePrefix env npl parameters).2
              = [⟨406, "Prefix is already deleted/Failed to open configuration file.",
                  env.wireEncode parameters⟩]) := by
  unfold withdrawAndRemovePrefix persistRequested
  dsimp only
  generalize npl.erase parameters.getName = erased
  generalize (parameters.hasFlags && parameters.getFlags == PREFIX_FLAG) = persist
  generalize env.afterWithdraw parameters.getName = outcome
  obtain ⟨removed, npl1⟩ := erased
  cases removed <;> cases persist <;> rcases outcome with _ | _ | _ <;>
    simp [responses, Event.response?]

/-- An absent prefix, persistence requested, failing hook: the one response is
406 "Prefix is already deleted/Failed to open configuration file.". -/
theorem withdraw_response_table_witness :
    ((⟨[(4, 0)]⟩ : NamePrefixList Nat).erase 3).1 = false
      ∧ persistRequested (⟨3, none, some 1⟩ : ControlParameters Nat) = true
      ∧ failingEnv.afterWithdraw 3 = some false
      ∧ responses (withdrawAndRemovePrefix failingEnv ⟨[(4, 0)]⟩ ⟨3, none, some 1⟩).2
          = [⟨406, "Prefix is already deleted/Failed to open configuration file.",
              [3, 0, 1]⟩] :=
  ⟨by decide, by decide, rfl,
    (withdraw_response_table failingEnv ⟨[(4, 0)]⟩ ⟨3, none, some 1⟩).2.2.2.2.2.2
      (by decide) (by decide) rfl⟩

/-- The status code of the advertise command, by cases. -/
theorem advertise_codes (env : CommandEnv Name) (npl : NamePrefixList Name)
    (parameters : ControlParameters Name) :
    codes (advertiseAndInsertPrefix env npl parameters).2
      = [if persistRequested parameters = true then
           (if env.afterAdvertise parameters.getName = some true then 205 else 406)
         else if (npl.insert (advertisedPair parameters)).1 = true then 200 else 204] := by
  unfold advertiseAndInsertPrefix persistRequested advertisedPair
  dsimp only
  generalize npl.insert (parameters.getName,
    uint64ToDouble (if parameters.hasCost then parameters.getCost else 0)) = inserted
  generalize (parameters.hasFlags && parameters.getFlags == PREFIX_FLAG) = persist
  generalize env.afterAdvertise parameters.getName = outcome
  obtain ⟨added, npl1⟩ := inserted
  cases added <;> cases persist <;> rcases outcome with _ | _ | _ <;>
    simp [codes, Event.response?]

/-- The status code of the withdraw command, by cases. -/
theorem withdraw_codes (env : CommandEnv Name) (npl : NamePrefixList Name)
    (parameters : ControlParameters Name) :
    codes (withdrawAndRemovePrefix env npl parameters).2
      = [if persistRequested parameters = true then
           (if env.afterWithdraw parameters.getName = some true then 205 else 406)
         else if (npl.erase parameters.getName).1 = true then 200 else 204] := by
  unfold withdrawAndRemovePrefix persistRequested
  dsimp only
  generalize npl.erase parameters.getName = erased
  generalize (parameters.hasFlags && parameters.getFlags == PREFIX_FLAG) = persist
  generalize env.afterWithdraw parameters.getName = outcome
  obtain ⟨removed, npl1⟩ := erased
  cases removed <;> cases persist <;> rcases outcome with _ | _ | _ <;>
    simp [codes, Event.response?]

/-- The steps of the advertise command around the rebuild. -/
theorem advertise_trace_build (env : CommandEnv Name) (npl : NamePrefixList Name)
    (parameters : ControlParameters Name) :
    ((npl.insert (advertisedPair parameters)).1 = true
        → ∃ rest, (advertiseAndInsertPrefix env npl parameters).2
            = .buildAndInstallOwnNameLsa (npl.insert (advertisedPair parameters)).2 :: rest
          ∧ ∀ e ∈ rest, e.isBuild = false)
      ∧ ((npl.insert (advertisedPair parameters)).1 = false
        → ∀ e ∈ (advertiseAndInsertPrefix env npl parameters).2, e.isBuild = false) := by
  unfold advertiseAndInsertPrefix advertisedPair
  dsimp only
  generalize npl.insert (parameters.getName,
    uint64ToDouble (if parameters.hasCost then parameters.getCost else 0)) = inserted
  generalize (parameters.hasFlags && parameters.getFlags == PREFIX_FLAG) = persist
  generalize env.afterAdvertise parameters.getName = outcome
  obtain ⟨added, npl1⟩ := inserted
  cases added <;> cases persist <;> rcases outcome with _ | _ | _ <;>
    simp [Event.isBuild]

/-- The steps of the withdraw command around the rebuild. -/
theorem withdraw_trace_build (env : CommandEnv Name) (npl : NamePrefixList Name)
    (parameters : ControlParameters Name) :
    ((npl.erase parameters.getName).1 = true
        → ∃ rest, (withdrawAndRemovePrefix env npl parameters).2
            = .buildAndInstallOwnNameLsa (npl.erase parameters.getName).2 :: rest
          ∧ ∀ e ∈ rest, e.isBuild = false)
      ∧ ((npl.erase parameters.getName).1 = false
        → ∀ e ∈ (withdrawAndRemovePrefix env npl parameters).2, e.isBuild = false) := by
  unfold withdrawAndRemovePrefix
  dsimp only
  generalize npl.erase parameters.getName = erased
  generalize (parameters.hasFlags && parameters.getFlags == PREFIX_FLAG) = persist
  generalize env.afterWithdraw parameters.getName = outcome
  obtain ⟨removed, npl1⟩ := erased
  cases removed <;> cases persist <;> rcases outcome with _ | _ | _ <;>
    simp [Event.isBuild]

omit [LinearOrder Name] in
theorem buildCount_eq_zero (trace : List (Event Name))
    (h : ∀ e ∈ trace, e.isBuild = false) : buildCount trace = 0 := by
  unfold buildCount
  rw [List.countP_eq_zero]
  intro e he
  rw [h e he]
  exact Bool.noConfusion

omit [LinearOrder Name] in
theorem buildCount_cons_build (npl : NamePrefixList Name) (rest : List (Event Name))
    (h : ∀ e ∈ rest, e.isBuild = false) :
    buildCount (.buildAndInstallOwnNameLsa npl :: rest) = 1 := by
  have h0 := buildCount_eq_zero rest h
  unfold buildCount at h0 ⊢
  rw [List.countP_cons_of_pos _ _ (by rfl), h0]

/-- C8, as the code has it: with the hooks of `CommandManagerBase` (which return
`std::nullopt`) a new prefix advertised with the persist flag is answered 406,
while the same request without the flag is answered 200; likewise an absent
prefix withdrawn with the flag is answered 406 and without it 204. -/
theorem default_hook_persist_counterexample :
    codes (advertiseAndInsertPrefix (CommandManagerBase.env sampleParamsEncode) ⟨[]⟩
        ⟨3, none, some 1⟩).2 = [406]
      ∧ codes (advertiseAndInsertPrefix (CommandManagerBase.env sampleParamsEncode) ⟨[]⟩
        ⟨3, none, none⟩).2 = [200]
      ∧ codes (withdrawAndRemovePrefix (CommandManagerBase.env sampleParamsEncode) ⟨[]⟩
        ⟨3, none, some 1⟩).2 = [406]
      ∧ codes (withdrawAndRemovePrefix (CommandManagerBase.env sampleParamsEncode) ⟨[]⟩
        ⟨3, none, none⟩).2 = [204] := by
  decide

/-- C8, amended: with the hooks of `CommandManagerBase` (which return
`std::nullopt`), advertise and withdraw answer 406 whenever persistence is
requested, and 200 on an effective change, 204 on a no-op when it is not; the
prefix list left behind and the number of rebuilds do not depend on the flags. -/
theorem default_hook_codes (wireEncode : ControlParameters Name → List Nat)
    (npl : NamePrefixList Name) (name : Name) (cost flags flags1 : Option Nat) :
    (persistRequested (⟨name, cost, flags⟩ : ControlParameters Name) = true
        → codes (advertiseAndInsertPrefix (CommandManagerBase.env wireEncode) npl
              ⟨name, cost, flags⟩).2 = [406]
          ∧ codes (withdrawAndRemovePrefix (CommandManagerBase.env wireEncode) npl
              ⟨name, cost, flags⟩).2 = [406])
      ∧ (persistRequested (⟨name, cost, flags⟩ : ControlParameters Name) = false
        → codes (advertiseAndInsertPrefix (CommandManagerBase.env wireEncode) npl
              ⟨name, cost, flags⟩).2
            = [if (npl.insert (advertisedPair ⟨name, cost, flags⟩)).1 = true then 200 else 204]
          ∧ codes (withdrawAndRemovePrefix (CommandManagerBase.env wireEncode) npl
              ⟨name, cost, flags⟩).2
            = [if (npl.erase name).1 = true then 200 else 204])
      ∧ (advertiseAndInsertPrefix (CommandManagerBase.env wireEncode) npl
            ⟨name, cost, flags⟩).1
          = (advertiseAndInsertPrefix (CommandManagerBase.env wireEncode) npl
            ⟨name, cost, flags1⟩).1
      ∧ (withdrawAndRemovePrefix (CommandManagerBase.env wireEncode) npl
            ⟨name, cost, flags⟩).1
          = (withdrawAndRemovePrefix (CommandManagerBase.env wireEncode) npl
            ⟨name, cost, flags1⟩).1
      ∧ buildCount (advertiseAndInsertPrefix (CommandManagerBase.env wireEncode) npl
            ⟨name, cost, flags⟩).2
          = buildCount (advertiseAndInsertPrefix (CommandManagerBase.env wireEncode) npl
            ⟨name, cost, flags1⟩).2
      ∧ buildCount (withdrawAndRemovePrefix (CommandManagerBase.env wireEncode) npl
            ⟨name, cost, flags⟩).2
          = buildCount (withdrawAndRemovePrefix (CommandManagerBase.env wireEncode) npl
            ⟨name, cost, flags1⟩).2 := by
  have hb : ∀ (f : Option Nat),
      buildCount (advertiseAndInsertPrefix (CommandManagerBase.env wireEncode) npl
          ⟨name, cost, f⟩).2
        = if (npl.insert (name, uint64ToDouble (if cost.isSome then cost.getD 0 else 0))).1 = true
          then 1 else 0 := by
    intro f
    have h := advertise_trace_build (CommandManagerBase.env wireEncode) npl ⟨name, cost, f⟩
    by_cases hi : (npl.insert (name, uint64ToDouble (if cost.isSome then cost.getD 0 else 0))).1 = true
    · obtain ⟨rest, e, hr⟩ := h.1 hi
      rw [e, buildCount_cons_build _ _ hr, if_pos hi]
    · rw [buildCount_eq_zero _ (h.2 (by simpa using hi)), if_neg hi]
  have hw : ∀ (f : Option Nat),
      buildCount (withdrawAndRemovePrefix (CommandManagerBase.env wireEncode) npl
          ⟨name, cost, f⟩).2
        = if (npl.erase name).1 = true then 1 else 0 := by
    intro f
    have h := withdraw_trace_build (CommandManagerBase.env wireEncode) npl ⟨name, cost, f⟩
    by_cases hi : (npl.erase name).1 = true
    · obtain ⟨rest, e, hr⟩ := h.1 hi
      rw [e, buildCount_cons_build _ _ hr, if_pos hi]
    · rw [buildCount_eq_zero _ (h.2 (by simpa using hi)), if_neg hi]
  refine ⟨?_, ?_, ?_, ?_, ?_, ?_⟩
  · intro hp
    rw [advertise_codes, withdraw_codes]
    simp [hp, CommandManagerBase.env]
  · intro hp
    rw [advertise_codes, withdraw_codes]
    simp [hp, ControlParameters.getName]
  · rw [advertise_fst, advertise_fst]; rfl
  · rw [withdraw_fst, withdraw_fst]; rfl
  · rw [hb, hb]
  · rw [hw, hw]

/-- A new prefix advertised with the persist flag and the default hooks: the
answer is 406.  Without the flag, a request with cost `2^53 + 1` into a list
that holds the name with cost `2^53` is a repeat of the converted pair and is
answered 204. -/
theorem default_hook_codes_witness :
    (persistRequested (⟨3, none, some 1⟩ : ControlParameters Nat) = true
        ∧ codes (advertiseAndInsertPrefix (CommandManagerBase.env sampleParamsEncode) ⟨[]⟩
            ⟨3, none, some 1⟩).2 = [406]
        ∧ codes (withdrawAndRemovePrefix (CommandManagerBase.env sampleParamsEncode) ⟨[]⟩
            ⟨3, none, some 1⟩).2 = [406])
      ∧ (persistRequested (⟨3, some 9007199254740993, none⟩ : ControlParameters Nat) = false
        ∧ codes (advertiseAndInsertPrefix (CommandManagerBase.env sampleParamsEncode)
            ⟨[(3, 9007199254740992)]⟩ ⟨3, some 9007199254740993, none⟩).2 = [204]) :=
  ⟨⟨by decide,
      (default_hook_codes sampleParamsEncode ⟨[]⟩ 3 none (some 1) none).1 (by decide)⟩,
    ⟨by decide,
      (((default_hook_codes sampleParamsEncode ⟨[(3, 9007199254740992)]⟩ 3
        (some 9007199254740993) none none).2.1 (by decide)).1).trans (by decide)⟩⟩

/-- C9: `buildAndInstallOwnNameLsa` is called exactly once when the insert (the
erase) changed the prefix list and not at all when it was a no-op, whatever the
flags and the hook; when it is called it is the first step, it finds the prefix
list already changed, and the hook call and the response come after it. -/
theorem rebuild_once_iff_changed (env : CommandEnv Name) (npl : NamePrefixList Name)
    (parameters : ControlParameters Name) :
    ((npl.insert (advertisedPair parameters)).1 = true
        → buildCount (advertiseAndInsertPrefix env npl parameters).2 = 1
          ∧ advertisedPair parameters
              ∈ (advertiseAndInsertPrefix env npl parameters).1.getNameCosts
          ∧ ∃ rest, (advertiseAndInsertPrefix env npl parameters).2
              = .buildAndInstallOwnNameLsa (advertiseAndInsertPrefix env npl parameters).1
                  :: rest
            ∧ (∀ e ∈ rest, e.isBuild = false)
            ∧ responses rest = responses (advertiseAndInsertPrefix env npl parameters).2)
      ∧ ((npl.insert (advertisedPair parameters)).1 = false
        → buildCount (advertiseAndInsertPrefix env npl parameters).2 = 0)
      ∧ ((npl.erase parameters.getName).1 = true
        → buildCount (withdrawAndRemovePrefix env npl parameters).2 = 1
          ∧ (∀ q ∈ (withdrawAndRemovePrefix env npl parameters).1.getNameCosts,
              q.1 ≠ parameters.getName)
          ∧ ∃ rest, (withdrawAndRemovePrefix env npl parameters).2
              = .buildAndInstallOwnNameLsa (withdrawAndRemovePrefix env npl parameters).1
                  :: rest
            ∧ (∀ e ∈ rest, e.isBuild = false)
            ∧ responses rest = responses (withdrawAndRemovePrefix env npl parameters).2)
      ∧ ((npl.erase parameters.getName).1 = false
        → buildCount (withdrawAndRemovePrefix env npl parameters).2 = 0) := by
  have ha := advertise_trace_build env npl parameters
  have hw := withdraw_trace_build env npl parameters
  refine ⟨?_, ?_, ?_, ?_⟩
  · intro hi
    obtain ⟨rest, e, hr⟩ := ha.1 hi
    refine ⟨by rw [e, buildCount_cons_build _ _ hr], ?_, rest, ?_, hr, ?_⟩
    · rw [advertise_fst]
      simp [NamePrefixList.insert, NamePrefixList.getNameCosts, mem_insertEntry]
    · rw [e, advertise_fst]
    · rw [e]; rfl
  · intro hi
    exact buildCount_eq_zero _ (ha.2 hi)
  · intro hi
    obtain ⟨rest, e, hr⟩ := hw.1 hi
    refine ⟨by rw [e, buildCount_cons_build _ _ hr], ?_, rest, ?_, hr, ?_⟩
    · rw [withdraw_fst]
      intro q hq
      simp only [NamePrefixList.erase, NamePrefixList.getNameCosts, List.mem_filter,
        decide_eq_true_eq] at hq
      exact hq.2
    · rw [e, withdraw_fst]
    · rw [e]; rfl
  · intro hi
    exact buildCount_eq_zero _ (hw.2 hi)

/-- A new prefix advertised without flags: one rebuild, as the first step.  A
request with cost `2^53 + 1` into a list that holds the name with cost `2^53`:
the insert is a repeat and there is no rebuild. -/
theorem rebuild_once_iff_changed_witness :
    (((⟨[]⟩ : NamePrefixList Nat).insert (advertisedPair ⟨3, some 2, none⟩)).1 = true
        ∧ buildCount (advertiseAndInsertPrefix savingEnv ⟨[]⟩ ⟨3, some 2, none⟩).2 = 1)
      ∧ (((⟨[(3, 9007199254740992)]⟩ : NamePrefixList Nat).insert
            (advertisedPair ⟨3, some 9007199254740993, none⟩)).1 = false
        ∧ buildCount (advertiseAndInsertPrefix savingEnv ⟨[(3, 9007199254740992)]⟩
            ⟨3, some 9007199254740993, none⟩).2 = 0) :=
  ⟨⟨by decide,
      ((rebuild_once_iff_changed savingEnv ⟨[]⟩ ⟨3, some 2, none⟩).1 (by decide)).1⟩,
    ⟨by decide,
      (rebuild_once_iff_changed savingEnv ⟨[(3, 9007199254740992)]⟩
        ⟨3, some 9007199254740993, none⟩).2.1 (by decide)⟩⟩

/-- C10, as the code has it: the cost is converted to `double` before the
insert.  With the list `[(3, 2^53)]`, which does not hold the pair
`(3, 2^53 + 1)`, a request for the name 3 with cost `2^53 + 1`, the persist flag
and a failing hook is answered 406, but the pair `(3, 2^53 + 1)` is not in the
list afterwards and there is no rebuild: the converted pair `(3, 2^53)` was
there already. -/
theorem no_rollback_on_persist_failure_counterexample :
    (3, 9007199254740993) ∉ (⟨[(3, 9007199254740992)]⟩ : NamePrefixList Nat).getNameCosts
      ∧ persistRequested (⟨3, some 9007199254740993, some 1⟩ : ControlParameters Nat) = true
      ∧ failingEnv.afterAdvertise 3 = some false
      ∧ codes (advertiseAndInsertPrefix failingEnv ⟨[(3, 9007199254740992)]⟩
          ⟨3, some 9007199254740993, some 1⟩).2 = [406]
      ∧ (3, 9007199254740993) ∉ (advertiseAndInsertPrefix failingEnv
          ⟨[(3, 9007199254740992)]⟩ ⟨3, some 9007199254740993, some 1⟩).1.getNameCosts
      ∧ (advertiseAndInsertPrefix failingEnv ⟨[(3, 9007199254740992)]⟩
          ⟨3, some 9007199254740993, some 1⟩).1.getNameCosts = [(3, 9007199254740992)]
      ∧ buildCount (advertiseAndInsertPrefix failingEnv ⟨[(3, 9007199254740992)]⟩
          ⟨3, some 9007199254740993, some 1⟩).2 = 0 := by
  decide

/-- C10, amended: the pair of an advertise request is the name with the cost
converted to `double` (the cost itself below `2^53`, 0 without a cost).  When
the prefix list does not hold that pair, a request with the persist flag and a
hook that reports a failure is answered 406, the pair is in the prefix list
afterwards and the rebuild has happened; the prefix list that advertise and
withdraw leave behind is the same for all flags and all hooks. -/
theorem no_rollback_on_persist_failure (env env1 : CommandEnv Name)
    (npl : NamePrefixList Name) (name : Name) (cost flags flags1 : Option Nat) :
    (advertisedPair (⟨name, cost, flags⟩ : ControlParameters Name) ∉ npl.getNameCosts
        → persistRequested (⟨name, cost, flags⟩ : ControlParameters Name) = true
        → env.afterAdvertise name = some false
        → codes (advertiseAndInsertPrefix env npl ⟨name, cost, flags⟩).2 = [406]
          ∧ advertisedPair (⟨name, cost, flags⟩ : ControlParameters Name)
              ∈ (advertiseAndInsertPrefix env npl ⟨name, cost, flags⟩).1.getNameCosts
          ∧ buildCount (advertiseAndInsertPrefix env npl ⟨name, cost, flags⟩).2 = 1)
      ∧ (advertiseAndInsertPrefix env npl ⟨name, cost, flags⟩).1
          = (advertiseAndInsertPrefix env1 npl ⟨name, cost, flags1⟩).1
      ∧ (withdrawAndRemovePrefix env npl ⟨name, cost, flags⟩).1
          = (withdrawAndRemovePrefix env1 npl ⟨name, cost, flags1⟩).1
      ∧ (∀ c, cost = some c → c < 2 ^ 53
          → advertisedPair (⟨name, cost, flags⟩ : ControlParameters Name) = (name, c))
      ∧ (cost = none
          → advertisedPair (⟨name, cost, flags⟩ : ControlParameters Name) = (name, 0))
      ∧ (∀ p, p ∈ (advertiseAndInsertPrefix env npl ⟨name, cost, flags⟩).1.getNameCosts
          ↔ p = advertisedPair (⟨name, cost, flags⟩ : ControlParameters Name)
            ∨ p ∈ npl.getNameCosts) := by
  refine ⟨?_, ?_, ?_, ?_, ?_, ?_⟩
  · intro hnot hp hf
    have hi : (npl.insert (advertisedPair (⟨name, cost, flags⟩ : ControlParameters Name))).1
        = true := insertEntry_fst_of_not_mem _ _ hnot
    obtain ⟨rest, e, hr⟩ := (advertise_trace_build env npl ⟨name, cost, flags⟩).1 hi
    refine ⟨?_, ?_, by rw [e, buildCount_cons_build _ _ hr]⟩
    · rw [advertise_codes, if_pos hp]
      have : env.afterAdvertise (ControlParameters.getName ⟨name, cost, flags⟩) = some false :=
        hf
      rw [this]
      rfl
    · rw [advertise_fst]
      simp [NamePrefixList.insert, NamePrefixList.getNameCosts, mem_insertEntry]
  · rw [advertise_fst, advertise_fst]; rfl
  · rw [withdraw_fst, withdraw_fst]; rfl
  · intro c hc hlt
    subst hc
    exact advertisedPair_of_lt name c flags hlt
  · intro hc
    subst hc
    exact advertisedPair_without_cost name flags
  · intro p
    rw [advertise_fst]
    simp only [NamePrefixList.insert, NamePrefixList.getNameCosts, mem_insertEntry]

/-- A new pair, the persist flag and a failing hook: 406, the pair is kept and
the rebuild has happened. -/
theorem no_rollback_on_persist_failure_witness :
    (advertisedPair (⟨3, some 2, some 1⟩ : ControlParameters Nat)
        ∉ (⟨[(1, 0)]⟩ : NamePrefixList Nat).getNameCosts
      ∧ persistRequested (⟨3, some 2, some 1⟩ : ControlParameters Nat) = true
      ∧ failingEnv.afterAdvertise 3 = some false)
      ∧ codes (advertiseAndInsertPrefix failingEnv ⟨[(1, 0)]⟩ ⟨3, some 2, some 1⟩).2 = [406]
      ∧ advertisedPair (⟨3, some 2, some 1⟩ : ControlParameters Nat)
          ∈ (advertiseAndInsertPrefix failingEnv ⟨[(1, 0)]⟩
              ⟨3, some 2, some 1⟩).1.getNameCosts
      ∧ buildCount (advertiseAndInsertPrefix failingEnv ⟨[(1, 0)]⟩ ⟨3, some 2, some 1⟩).2
          = 1 :=
  ⟨⟨by decide, by decide, rfl⟩,
    (no_rollback_on_persist_failure failingEnv savingEnv ⟨[(1, 0)]⟩ 3 (some 2) (some 1)
      none).1 (by decide) (by decide) rfl⟩

/-- C11: the one response of `advertiseAndInsertPrefix` and of
`withdrawAndRemovePrefix` has, on every branch, the wire encoding of the request
parameters as its body, and its code is one of 200, 204, 205, 406. -/
theorem response_body_echoes_parameters (env : CommandEnv Name) (npl : NamePrefixList Name)
    (parameters : ControlParameters Name) :
    bodies (advertiseAndInsertPrefix env npl parameters).2 = [env.wireEncode parameters]
      ∧ bodies (withdrawAndRemovePrefix env npl parameters).2 = [env.wireEncode parameters]
      ∧ (∀ r ∈ responses (advertiseAndInsertPrefix env npl parameters).2,
          r.body = env.wireEncode parameters
            ∧ (r.code = 200 ∨ r.code = 204 ∨ r.code = 205 ∨ r.code = 406))
      ∧ (∀ r ∈ responses (withdrawAndRemovePrefix env npl parameters).2,
          r.body = env.wireEncode parameters
            ∧ (r.code = 200 ∨ r.code = 204 ∨ r.code = 205 ∨ r.code = 406)) := by
  unfold advertiseAndInsertPrefix withdrawAndRemovePrefix
  dsimp only
  generalize npl.insert (parameters.getName,
    uint64ToDouble (if parameters.hasCost then parameters.getCost else 0)) = inserted
  generalize npl.erase parameters.getName = erased
  generalize (parameters.hasFlags && parameters.getFlags == PREFIX_FLAG) = persist
  generalize env.afterAdvertise parameters.getName = outcome
  generalize env.afterWithdraw parameters.getName = outcome1
  obtain ⟨added, npl1⟩ := inserted
  obtain ⟨removed, npl2⟩ := erased
  refine ⟨?_, ?_, ?_, ?_⟩
  · cases added <;> cases persist <;> rcases outcome with _ | _ | _ <;>
      simp [bodies, Event.response?]
  · cases removed <;> cases persist <;> rcases outcome1 with _ | _ | _ <;>
      simp [bodies, Event.response?]
  · cases added <;> cases persist <;> rcases outcome with _ | _ | _ <;>
      simp [responses, Event.response?]
  · cases removed <;> cases persist <;> rcases outcome1 with _ | _ | _ <;>
      simp [responses, Event.response?]

/-- A new prefix advertised with the persist flag and a failing hook: the 406
response carries the encoded request. -/
theorem response_body_echoes_parameters_witness :
    bodies (advertiseAndInsertPrefix failingEnv ⟨[]⟩ ⟨3, some 2, some 1⟩).2 = [[3, 2, 1]]
      ∧ bodies (withdrawAndRemovePrefix failingEnv ⟨[]⟩ ⟨3, some 2, some 1⟩).2 = [[3, 2, 1]] :=
  ⟨(response_body_echoes_parameters failingEnv ⟨[]⟩ ⟨3, some 2, some 1⟩).1,
    (response_body_echoes_parameters failingEnv ⟨[]⟩ ⟨3, some 2, some 1⟩).2.1⟩

omit [LinearOrder Name] in
theorem persistRequested_iff (parameters : ControlParameters Name) :
    persistRequested parameters = true ↔ parameters.m_flags = some PREFIX_FLAG := by
  unfold persistRequested ControlParameters.hasFlags ControlParameters.getFlags
  cases parameters.m_flags <;> simp

/-- The hook calls of the advertise command, by cases. -/
theorem advertise_hookCalls (env : CommandEnv Name) (npl : NamePrefixList Name)
    (parameters : ControlParameters Name) :
    hookCalls (advertiseAndInsertPrefix env npl parameters).2
      = if persistRequested parameters = true then [.afterAdvertise parameters.getName]
        else [] := by
  unfold advertiseAndInsertPrefix persistRequested
  dsimp only
  generalize npl.insert (parameters.getName,
    uint64ToDouble (if parameters.hasCost then parameters.getCost else 0)) = inserted
  generalize (parameters.hasFlags && parameters.getFlags == PREFIX_FLAG) = persist
  generalize env.afterAdvertise parameters.getName = outcome
  obtain ⟨added, npl1⟩ := inserted
  cases added <;> cases persist <;> rcases outcome with _ | _ | _ <;>
    simp [hookCalls, Event.isHook]

/-- The hook calls of the withdraw command, by cases. -/
theorem withdraw_hookCalls (env : CommandEnv Name) (npl : NamePrefixList Name)
    (parameters : ControlParameters Name) :
    hookCalls (withdrawAndRemovePrefix env npl parameters).2
      = if persistRequested parameters = true then [.afterWithdraw parameters.getName]
        else [] := by
  unfold withdrawAndRemovePrefix persistRequested
  dsimp only
  generalize npl.erase parameters.getName = erased
  generalize (parameters.hasFlags && parameters.getFlags == PREFIX_FLAG) = persist
  generalize env.afterWithdraw parameters.getName = outcome
  obtain ⟨removed, npl1⟩ := erased
  cases removed <;> cases persist <;> rcases outcome with _ | _ | _ <;>
    simp [hookCalls, Event.isHook]

/-- C18: persistence is requested exactly when the request has a flags field
equal to `PREFIX_FLAG`.  For any other request no hook is called and the code is
200 or 204; for a request with the flag the hook is called once, with the name
of the request; so a hook is called at most once in every case. -/
theorem hook_called_iff_prefix_flag (env : CommandEnv Name) (npl : NamePrefixList Name)
    (parameters : ControlParameters Name) :
    (parameters.m_flags ≠ some PREFIX_FLAG
        → hookCalls (advertiseAndInsertPrefix env npl parameters).2 = []
          ∧ hookCalls (withdrawAndRemovePrefix env npl parameters).2 = []
          ∧ (codes (advertiseAndInsertPrefix env npl parameters).2 = [200]
              ∨ codes (advertiseAndInsertPrefix env npl parameters).2 = [204])
          ∧ (codes (withdrawAndRemovePrefix env npl parameters).2 = [200]
              ∨ codes (withdrawAndRemovePrefix env npl parameters).2 = [204]))
      ∧ (parameters.m_flags = some PREFIX_FLAG
        → hookCalls (advertiseAndInsertPrefix env npl parameters).2
            = [.afterAdvertise parameters.getName]
          ∧ hookCalls (withdrawAndRemovePrefix env npl parameters).2
            = [.afterWithdraw parameters.getName])
      ∧ (hookCalls (advertiseAndInsertPrefix env npl parameters).2).length ≤ 1
      ∧ (hookCalls (withdrawAndRemovePrefix env npl parameters).2).length ≤ 1 := by
  rw [advertise_hookCalls, withdraw_hookCalls, advertise_codes, withdraw_codes]
  by_cases hp : persistRequested parameters = true
  · have hf := (persistRequested_iff parameters).mp hp
    simp [hp, hf]
  · have hf : parameters.m_flags ≠ some PREFIX_FLAG :=
      fun h => hp ((persistRequested_iff parameters).mpr h)
    simp only [hp, hf, if_false, Bool.false_eq_true, ne_eq, not_false_eq_true, true_implies,
      false_implies, List.length_nil, Nat.zero_le, and_true, true_and]
    refine ⟨?_, ?_⟩
    · by_cases hi : (npl.insert (advertisedPair parameters)).1 = true
      · exact Or.inl (by rw [if_pos hi])
      · exact Or.inr (by rw [if_neg hi])
    · by_cases hi : (npl.erase parameters.getName).1 = true
      · exact Or.inl (by rw [if_pos hi])
      · exact Or.inr (by rw [if_neg hi])

/-- A request whose flags are 2: no hook is called and a new prefix is answered
200, even with hooks that would report a failure. -/
theorem hook_called_iff_prefix_flag_witness :
    (⟨3, none, some 2⟩ : ControlParameters Nat).m_flags ≠ some PREFIX_FLAG
      ∧ hookCalls (advertiseAndInsertPrefix failingEnv ⟨[]⟩ ⟨3, none, some 2⟩).2 = []
      ∧ hookCalls (withdrawAndRemovePrefix failingEnv ⟨[]⟩ ⟨3, none, some 2⟩).2 = []
      ∧ (codes (advertiseAndInsertPrefix failingEnv ⟨[]⟩ ⟨3, none, some 2⟩).2 = [200]
          ∨ codes (advertiseAndInsertPrefix failingEnv ⟨[]⟩ ⟨3, none, some 2⟩).2 = [204])
      ∧ (codes (withdrawAndRemovePrefix failingEnv ⟨[]⟩ ⟨3, none, some 2⟩).2 = [200]
          ∨ codes (withdrawAndRemovePrefix failingEnv ⟨[]⟩ ⟨3, none, some 2⟩).2 = [204]) :=
  ⟨by decide,
    (hook_called_iff_prefix_flag failingEnv ⟨[]⟩ ⟨3, none, some 2⟩).1 (by decide)⟩

/-- The number of rebuilds of the advertise command. -/
theorem advertise_buildCount (env : CommandEnv Name) (npl : NamePrefixList Name)
    (parameters : ControlParameters Name) :
    buildCount (advertiseAndInsertPrefix env npl parameters).2
      = if (npl.insert (advertisedPair parameters)).1 = true then 1 else 0 := by
  have h := advertise_trace_build env npl parameters
  by_cases hi : (npl.insert (advertisedPair parameters)).1 = true
  · obtain ⟨rest, e, hr⟩ := h.1 hi
    rw [e, buildCount_cons_build _ _ hr, if_pos hi]
  · rw [buildCount_eq_zero _ (h.2 (by simpa using hi)), if_neg hi]

/-- Inserting a pair a second time is a no-op, whatever the sequence. -/
theorem insertEntry_idem (p : Name × Nat) (l : List (Name × Nat)) :
    NamePrefixList.insertEntry p (NamePrefixList.insertEntry p l).2
      = (false, (NamePrefixList.insertEntry p l).2) := by
  induction l with
  | nil => simp [NamePrefixList.insertEntry, tupleLess_irrefl]
  | cons q l ih =>
    by_cases h1 : tupleLess p q = true
    · simp [NamePrefixList.insertEntry, h1, tupleLess_irrefl]
    · by_cases h2 : tupleLess q p = true
      · have e : NamePrefixList.insertEntry p (q :: l)
            = ((NamePrefixList.insertEntry p l).1, q :: (NamePrefixList.insertEntry p l).2) := by
          rw [NamePrefixList.insertEntry, if_neg h1, if_pos h2]
        rw [e]
        simp only
        rw [NamePrefixList.insertEntry, if_neg h1, if_pos h2, ih]
      · have e : NamePrefixList.insertEntry p (q :: l) = (false, q :: l) := by
          rw [NamePrefixList.insertEntry, if_neg h1, if_neg h2]
        rw [e]
        exact e

/-- C19: an advertise request without a cost inserts the pair (name, 0): the
prefix list afterwards is the prior list with (name, 0) inserted and holds that
pair, there is one rebuild iff the pair was added, and the code follows the
table for that insert (200 for a new pair without persistence).  Prefix list,
number of rebuilds and code are those of the same request with cost 0, and
advertising a name without a cost right after advertising it with cost 0 is a
no-op, answered 204 when persistence is not requested. -/
theorem advertise_without_cost_is_cost_zero (env env1 : CommandEnv Name)
    (npl : NamePrefixList Name) (name : Name) (flags flags1 : Option Nat) :
    advertisedPair (⟨name, none, flags⟩ : ControlParameters Name) = (name, 0)
      ∧ (advertiseAndInsertPrefix env npl ⟨name, none, flags⟩).1 = (npl.insert (name, 0)).2
      ∧ (name, 0) ∈ (advertiseAndInsertPrefix env npl ⟨name, none, flags⟩).1.getNameCosts
      ∧ (∀ p, p ∈ (advertiseAndInsertPrefix env npl ⟨name, none, flags⟩).1.getNameCosts
          ↔ p = (name, 0) ∨ p ∈ npl.getNameCosts)
      ∧ buildCount (advertiseAndInsertPrefix env npl ⟨name, none, flags⟩).2
          = (if (npl.insert (name, 0)).1 = true then 1 else 0)
      ∧ codes (advertiseAndInsertPrefix env npl ⟨name, none, flags⟩).2
          = [if flags = some PREFIX_FLAG then
               (if env.afterAdvertise name = some true then 205 else 406)
             else if (npl.insert (name, 0)).1 = true then 200 else 204]
      ∧ ((name, 0) ∉ npl.getNameCosts
        → buildCount (advertiseAndInsertPrefix env npl ⟨name, none, flags⟩).2 = 1
          ∧ (flags ≠ some PREFIX_FLAG
            → codes (advertiseAndInsertPrefix env npl ⟨name, none, flags⟩).2 = [200]))
      ∧ (advertiseAndInsertPrefix env npl ⟨name, none, flags⟩).1
          = (advertiseAndInsertPrefix env npl ⟨name, some 0, flags⟩).1
      ∧ buildCount (advertiseAndInsertPrefix env npl ⟨name, none, flags⟩).2
          = buildCount (advertiseAndInsertPrefix env npl ⟨name, some 0, flags⟩).2
      ∧ codes (advertiseAndInsertPrefix env npl ⟨name, none, flags⟩).2
          = codes (advertiseAndInsertPrefix env npl ⟨name, some 0, flags⟩).2
      ∧ (advertiseAndInsertPrefix env
            (advertiseAndInsertPrefix env1 npl ⟨name, some 0, flags1⟩).1
            ⟨name, none, flags⟩).1
          = (advertiseAndInsertPrefix env1 npl ⟨name, some 0, flags1⟩).1
      ∧ buildCount (advertiseAndInsertPrefix env
            (advertiseAndInsertPrefix env1 npl ⟨name, some 0, flags1⟩).1
            ⟨name, none, flags⟩).2 = 0
      ∧ (flags ≠ some PREFIX_FLAG
        → codes (advertiseAndInsertPrefix env
            (advertiseAndInsertPrefix env1 npl ⟨name, some 0, flags1⟩).1
            ⟨name, none, flags⟩).2 = [204]) := by
  have hnone := advertisedPair_without_cost name flags
  have hzero := advertisedPair_cost_zero name flags
  have hzero1 := advertisedPair_cost_zero name flags1
  have hpersist : (persistRequested (⟨name, none, flags⟩ : ControlParameters Name) = true)
      ↔ flags = some PREFIX_FLAG := persistRequested_iff _
  have hpersist0 : persistRequested (⟨name, some 0, flags⟩ : ControlParameters Name)
      = persistRequested (⟨name, none, flags⟩ : ControlParameters Name) := rfl
  have hname : ∀ (cost f : Option Nat),
      ControlParameters.getName (⟨name, cost, f⟩ : ControlParameters Name) = name :=
    fun _ _ => rfl
  have hcodes : codes (advertiseAndInsertPrefix env npl ⟨name, none, flags⟩).2
      = [if flags = some PREFIX_FLAG then
           (if env.afterAdvertise name = some true then 205 else 406)
         else if (npl.insert (name, 0)).1 = true then 200 else 204] := by
    rw [advertise_codes, hnone, hname]
    by_cases hf : flags = some PREFIX_FLAG
    · rw [if_pos (hpersist.mpr hf), if_pos hf]
    · rw [if_neg (fun h => hf (hpersist.mp h)), if_neg hf]
  have hcount : buildCount (advertiseAndInsertPrefix env npl ⟨name, none, flags⟩).2
      = (if (npl.insert (name, 0)).1 = true then 1 else 0) := by
    rw [advertise_buildCount, hnone]
  have hidem := insertEntry_idem (name, 0) npl.m_nameCosts
  have hnoop : ((advertiseAndInsertPrefix env1 npl ⟨name, some 0, flags1⟩).1.insert (name, 0))
      = (false, (advertiseAndInsertPrefix env1 npl ⟨name, some 0, flags1⟩).1) := by
    rw [advertise_fst, hzero1]
    show (NamePrefixList.insert ⟨(NamePrefixList.insertEntry (name, 0) npl.m_nameCosts).2⟩
      (name, 0)) = (false, ⟨(NamePrefixList.insertEntry (name, 0) npl.m_nameCosts).2⟩)
    unfold NamePrefixList.insert
    simp only
    rw [hidem]
  refine ⟨hnone, ?_, ?_, ?_, hcount, hcodes, ?_, ?_, ?_, ?_, ?_, ?_, ?_⟩
  · rw [advertise_fst, hnone]
  · rw [advertise_fst, hnone]
    simp [NamePrefixList.insert, NamePrefixList.getNameCosts, mem_insertEntry]
  · intro p
    rw [advertise_fst, hnone]
    simp only [NamePrefixList.insert, NamePrefixList.getNameCosts, mem_insertEntry]
  · intro hnot
    have hi : (npl.insert (name, 0)).1 = true := insertEntry_fst_of_not_mem _ _ hnot
    refine ⟨by rw [hcount, if_pos hi], ?_⟩
    intro hf
    rw [hcodes, if_neg hf, if_pos hi]
  · rw [advertise_fst, advertise_fst, hnone, hzero]
  · rw [advertise_buildCount, advertise_buildCount, hnone, hzero]
  · rw [advertise_codes, advertise_codes, hnone, hzero, hpersist0]
    rfl
  · rw [advertise_fst, hnone, hnoop]
  · rw [advertise_buildCount, hnone, hnoop]
    rfl
  · intro hf
    have hp : ¬ persistRequested (⟨name, none, flags⟩ : ControlParameters Name) = true :=
      fun h => hf (hpersist.mp h)
    rw [advertise_codes, hnone, hnoop, if_neg hp]
    rfl

/-- The name 3 advertised without a cost and without flags into a list that
lacks (3, 0): the pair (3, 0) is in the list afterwards, there is one rebuild
and the answer is 200; advertised again after a request with cost 0, the answer
is 204. -/
theorem advertise_without_cost_is_cost_zero_witness :
    ((3, 0) ∉ (⟨[(1, 0)]⟩ : NamePrefixList Nat).getNameCosts
        ∧ (none : Option Nat) ≠ some PREFIX_FLAG)
      ∧ (3, 0) ∈ (advertiseAndInsertPrefix failingEnv ⟨[(1, 0)]⟩
            ⟨3, none, none⟩).1.getNameCosts
      ∧ buildCount (advertiseAndInsertPrefix failingEnv ⟨[(1, 0)]⟩ ⟨3, none, none⟩).2 = 1
      ∧ codes (advertiseAndInsertPrefix failingEnv ⟨[(1, 0)]⟩ ⟨3, none, none⟩).2 = [200]
      ∧ codes (advertiseAndInsertPrefix failingEnv
          (advertiseAndInsertPrefix savingEnv ⟨[(1, 0)]⟩ ⟨3, some 0, some 1⟩).1
          ⟨3, none, none⟩).2 = [204] :=
  ⟨⟨by decide, by decide⟩,
    (advertise_without_cost_is_cost_zero failingEnv savingEnv ⟨[(1, 0)]⟩ 3 none
      (some 1)).2.2.1,
    ((advertise_without_cost_is_cost_zero failingEnv savingEnv ⟨[(1, 0)]⟩ 3 none
      (some 1)).2.2.2.2.2.2.1 (by decide)).1,
    ((advertise_without_cost_is_cost_zero failingEnv savingEnv ⟨[(1, 0)]⟩ 3 none
      (some 1)).2.2.2.2.2.2.1 (by decide)).2 (by decide),
    (advertise_without_cost_is_cost_zero failingEnv savingEnv ⟨[(1, 0)]⟩ 3 none
      (some 1)).2.2.2.2.2.2.2.2.2.2.2.2 (by decide)⟩

end CommandClaims

/-! ## Claims about the no-op, the cache and the frame of `NameLsa::update` -/

section MergeClaims

variable {Name : Type} [LinearOrder Name]

/-- C15: when the incoming LSA has the same pair sequence as `self`, ascending
or not, `NameLsa::update` returns `(false, [], [])` and leaves `self` as it was,
prefix list and cached wire included. -/
theorem update_same_pairs_is_noop (self lsa : NameLsa Name)
    (h : lsa.m_npl.getNameCosts = self.m_npl.getNameCosts) :
    self.update lsa = ((false, [], []), self) := by
  refine Prod.ext ?_ ?_
  · rw [update_fst, h, set_difference_self]
    rfl
  · rw [update_snd_fields, h, set_difference_self]
    rfl

/-- A pair sequence that is not ascending, merged with an equal one: nothing is
reported and the object, cached wire included, is untouched. -/
theorem update_same_pairs_is_noop_witness :
    sampleUnsortedIncoming.m_npl.getNameCosts = sampleUnsortedCachedLsa.m_npl.getNameCosts
      ∧ ¬ StrictAscending sampleUnsortedCachedLsa.m_npl.getNameCosts
      ∧ sampleUnsortedCachedLsa.update sampleUnsortedIncoming
          = ((false, [], []), sampleUnsortedCachedLsa) :=
  ⟨rfl, by decide, update_same_pairs_is_noop sampleUnsortedCachedLsa sampleUnsortedIncoming rfl⟩

/-- C20: `NameLsa::update` keeps the origin router, the sequence number and the
expiration of `self`; what it returns and the prefix list it leaves depend only
on the two pair collections, not on the base fields or the cached wire of either
object. -/
theorem update_frame (self lsa : NameLsa Name) :
    (self.update lsa).2.m_originRouter = self.m_originRouter
      ∧ (self.update lsa).2.m_seqNo = self.m_seqNo
      ∧ (self.update lsa).2.m_expirationTimePoint = self.m_expirationTimePoint
      ∧ ∀ (base base1 : Lsa Name) (wire wire1 : Option Block),
          ((NameLsa.mk base self.m_npl wire).update (NameLsa.mk base1 lsa.m_npl wire1)).1
              = (self.update lsa).1
            ∧ ((NameLsa.mk base self.m_npl wire).update
                  (NameLsa.mk base1 lsa.m_npl wire1)).2.m_npl
              = (self.update lsa).2.m_npl
            ∧ ((NameLsa.mk base self.m_npl wire).update
                  (NameLsa.mk base1 lsa.m_npl wire1)).2.toLsa = base := by
  refine ⟨?_, ?_, ?_, ?_⟩
  · rw [update_snd_fields]
  · rw [update_snd_fields]
  · rw [update_snd_fields]
  · intro base base1 wire wire1
    refine ⟨?_, ?_, ?_⟩
    · rw [update_fst, update_fst]
    · rw [update_snd_fields, update_snd_fields]
    · rw [update_snd_fields]

/-- C17: `NameLsa::update` returns on every input (the two forward passes, with
the flag saying whether one of them is non-empty), and without the ascending
order its result is wrong: with `self = [(a,1)]` and the incoming sequence
`[(b,1),(a,1)]` it reports `(a,1)` both as added and as removed, which are not
the set differences, and `self` ends with the pair set `{(b,1)}`, not the pair
set of the incoming LSA. -/
theorem update_unsorted_incoming_goes_wrong :
    (∀ (Name : Type) [LinearOrder Name] (self lsa : NameLsa Name),
        (self.update lsa).1
          = (!(set_difference lsa.m_npl.getNameCosts self.m_npl.getNameCosts).isEmpty
              || !(set_difference self.m_npl.getNameCosts lsa.m_npl.getNameCosts).isEmpty,
             set_difference lsa.m_npl.getNameCosts self.m_npl.getNameCosts,
             set_difference self.m_npl.getNameCosts lsa.m_npl.getNameCosts))
      ∧ ¬ StrictAscending sampleUnsortedIncoming.m_npl.getNameCosts
      ∧ (sampleSingleLsa.update sampleUnsortedIncoming).1
          = (true, [('b', 1), ('a', 1)], [('a', 1)])
      ∧ (sampleSingleLsa.update sampleUnsortedIncoming).1.2.1
          ≠ sampleUnsortedIncoming.m_npl.getNameCosts.filter
              (fun p => decide (p ∉ sampleSingleLsa.m_npl.getNameCosts))
      ∧ (sampleSingleLsa.update sampleUnsortedIncoming).1.2.2
          ≠ sampleSingleLsa.m_npl.getNameCosts.filter
              (fun p => decide (p ∉ sampleUnsortedIncoming.m_npl.getNameCosts))
      ∧ (sampleSingleLsa.update sampleUnsortedIncoming).2.m_npl.getNameCosts = [('b', 1)]
      ∧ ¬ (∀ p, p ∈ (sampleSingleLsa.update sampleUnsortedIncoming).2.m_npl.getNameCosts
            ↔ p ∈ sampleUnsortedIncoming.m_npl.getNameCosts) := by
  have hadd : set_difference sampleUnsortedIncoming.m_npl.getNameCosts
      sampleSingleLsa.m_npl.getNameCosts = [('b', 1), ('a', 1)] := by
    show set_difference [('b', 1), ('a', 1)] [('a', 1)] = [('b', 1), ('a', 1)]
    rw [set_difference, if_neg (by decide), if_pos (by decide), set_difference]
  have hrem : set_difference sampleSingleLsa.m_npl.getNameCosts
      sampleUnsortedIncoming.m_npl.getNameCosts = [('a', 1)] := by
    show set_difference [('a', 1)] [('b', 1), ('a', 1)] = [('a', 1)]
    rw [set_difference, if_pos (by decide), set_difference]
  have hres : (sampleSingleLsa.update sampleUnsortedIncoming).1
      = (true, [('b', 1), ('a', 1)], [('a', 1)]) := by
    rw [update_fst, hadd, hrem]
    rfl
  have hnpl : (sampleSingleLsa.update sampleUnsortedIncoming).2.m_npl.getNameCosts
      = [('b', 1)] := by
    rw [update_snd_fields, hadd, hrem]
    decide
  refine ⟨fun Name _ self lsa => update_fst self lsa, by decide, hres, ?_, ?_, hnpl, ?_⟩
  · rw [hres]
    decide
  · rw [hres]
    decide
  · intro hall
    have hmem := (hall ('a', 1)).mpr (by decide)
    rw [hnpl] at hmem
    exact absurd hmem (by decide)

omit [LinearOrder Name] in
/-- Without a cached wire, `wireEncode()` builds the block from a fresh pass of
the encoder. -/
theorem wireEncode_of_no_wire (c : SubCodecs Name) (t : TlvTypes) (x : NameLsa Name)
    (h : x.m_wire = none) :
    (x.wireEncode c t).1 = Block.fromBuffer (x.wireEncodeImpl c t []).2 := by
  unfold NameLsa.wireEncode
  rw [h]
  simp only
  cases Block.fromBuffer (x.wireEncodeImpl c t []).2 <;> rfl

/-- C16: for an object that holds a cached wire, `wireEncode()` returns the
cached block as long as no pair is added or removed; after an `update` that
reports a change the cache is gone and the next `wireEncode()` is a fresh
encoding of the current base fields and the merged prefix list; after an
`update` that reports no change the object and its cache are as before. -/
theorem update_cache_invariant (c : SubCodecs Name) (t : TlvTypes) (self lsa : NameLsa Name)
    (wire : Block) (hcache : self.m_wire = some wire) :
    self.wireEncode c t = (some wire, self)
      ∧ ((self.update lsa).1.1 = true
          → (self.update lsa).2.m_wire = none
            ∧ ((self.update lsa).2.wireEncode c t).1
                = Block.fromBuffer ((self.update lsa).2.wireEncodeImpl c t []).2
            ∧ (0 < t.NameLsa ∧ t.NameLsa ≤ 4294967295
                → ((self.update lsa).2.wireEncodeImpl c t []).1 < 2 ^ 64
                → ((self.update lsa).2.wireEncode c t).1
                    = some ⟨t.NameLsa, ((self.update lsa).2.wireEncodeImpl c t []).2,
                        (self.update lsa).2.encodedValue c⟩))
      ∧ ((self.update lsa).1.1 = false
          → (self.update lsa).2 = self
            ∧ ((self.update lsa).2.wireEncode c t).1 = some wire) := by
  have henc : self.wireEncode c t = (some wire, self) := by
    unfold NameLsa.wireEncode
    rw [hcache]
  refine ⟨henc, ?_, ?_⟩
  · intro hchanged
    have hnone : (self.update lsa).2.m_wire = none := by
      rw [update_fst] at hchanged
      rw [update_snd_fields]
      simp only at hchanged ⊢
      cases h1 : (set_difference self.m_npl.getNameCosts lsa.m_npl.getNameCosts).isEmpty
      · rfl
      · cases h2 : (set_difference lsa.m_npl.getNameCosts self.m_npl.getNameCosts).isEmpty
        · rfl
        · rw [h1, h2] at hchanged
          exact Bool.noConfusion hchanged
    exact ⟨hnone, wireEncode_of_no_wire c t _ hnone,
      fun htype hsize => wireEncode_fresh c t _ hnone htype hsize⟩
  · intro hsame
    have hself : (self.update lsa).2 = self := by
      rw [update_fst] at hsame
      simp only [Bool.or_eq_false_iff, Bool.not_eq_false', List.isEmpty_iff] at hsame
      rw [update_snd_fields, hsame.1, hsame.2]
      rfl
    rw [hself, henc]
    exact ⟨rfl, rfl⟩

/-- An object with a cached wire and the pair `(1,5)`, merged with `(1,5), (2,5)`:
a change is reported, the cache is dropped and the next encoding is fresh. -/
theorem update_cache_invariant_witness :
    sampleCachedLsa.m_wire
        = some ⟨137, [137, 9, 128, 3, 7, 1, 0, 150, 2, 1, 5], [128, 3, 7, 1, 0, 150, 2, 1, 5]⟩
      ∧ (sampleCachedLsa.update sampleLsa).1.1 = true
      ∧ (sampleCachedLsa.update sampleLsa).2.m_wire = none
      ∧ ((sampleCachedLsa.update sampleLsa).2.wireEncode sampleCodecs sampleTypes).1
          = Block.fromBuffer
              ((sampleCachedLsa.update sampleLsa).2.wireEncodeImpl sampleCodecs sampleTypes
                []).2 := by
  have hchanged : (sampleCachedLsa.update sampleLsa).1.1 = true := by
    rw [update_fst]
    show (!(set_difference [(1, 5), (2, 5)] [(1, 5)]).isEmpty
      || !(set_difference [(1, 5)] [(1, 5), (2, 5)]).isEmpty) = true
    rw [set_difference, if_neg (by decide), if_neg (by decide), set_difference]
    rfl
  have h := (update_cache_invariant sampleCodecs sampleTypes sampleCachedLsa sampleLsa _
    rfl).2.1 hchanged
  exact ⟨rfl, hchanged, h.1, h.2.1⟩

end MergeClaims

/-! ## Claims about the layout, the determinism and the failures of the codec -/

section LayoutClaims

variable {Name : Type}

/-- The templated `wireEncode` on an encoder that already holds `block`. -/
theorem wireEncodeImpl_append (c : SubCodecs Name) (t : TlvTypes) (self : NameLsa Name)
    (block : List Nat) :
    self.wireEncodeImpl c t block
      = ((varNumber t.NameLsa).length + ((varNumber (self.encodedValue c).length).length
            + (self.encodedValue c).length),
         varNumber t.NameLsa ++ (varNumber (self.encodedValue c).length
            ++ (self.encodedValue c ++ block))) := by
  unfold NameLsa.wireEncodeImpl prependVarNumber NameLsa.encodedValue NamePrefixList.getNameCosts
  simp only [encodeNames_eq, Nat.zero_add, List.length_append, List.append_assoc,
    Prod.mk.injEq]
  have e : ((self.m_npl.m_nameCosts.map c.prefixCostWireEncode).flatten).length
      + (c.lsaWireEncode self.toLsa).length
      = (c.lsaWireEncode self.toLsa).length
        + ((self.m_npl.m_nameCosts.map c.prefixCostWireEncode).flatten).length := by omega
  rw [e]
  exact ⟨by omega, rfl⟩

/-- C13: a pass of the templated `wireEncode` writes, in front of what the
encoder holds, the type `NameLsa`, the length of the content as a variable-size
number, and the content: the encoded base LSA followed by the encoded pairs in
the order of the collection; the size it returns is the number of bytes it
wrote.  For an object without a cached wire (and a legal type, a size below
2^64) `wireEncode()` returns the block made of these bytes. -/
theorem wireEncode_layout (c : SubCodecs Name) (t : TlvTypes) (self : NameLsa Name)
    (block : List Nat) :
    (self.wireEncodeImpl c t block).2
        = varNumber t.NameLsa
          ++ (varNumber (c.lsaWireEncode self.toLsa
                ++ (self.m_npl.getNameCosts.map c.prefixCostWireEncode).flatten).length
            ++ ((c.lsaWireEncode self.toLsa
                ++ (self.m_npl.getNameCosts.map c.prefixCostWireEncode).flatten) ++ block))
      ∧ (self.wireEncodeImpl c t block).1 + block.length
          = (self.wireEncodeImpl c t block).2.length
      ∧ (self.wireEncodeImpl c t block).1 = (self.wireEncodeImpl c t []).2.length
      ∧ (self.m_wire = none → 0 < t.NameLsa ∧ t.NameLsa ≤ 4294967295
          → (self.wireEncodeImpl c t []).1 < 2 ^ 64
          → (self.wireEncode c t).1
              = some ⟨t.NameLsa, (self.wireEncodeImpl c t []).2,
                  c.lsaWireEncode self.toLsa
                    ++ (self.m_npl.getNameCosts.map c.prefixCostWireEncode).flatten⟩
            ∧ readVarNumber (varNumber (c.lsaWireEncode self.toLsa
                  ++ (self.m_npl.getNameCosts.map c.prefixCostWireEncode).flatten).length
                ++ (c.lsaWireEncode self.toLsa
                  ++ (self.m_npl.getNameCosts.map c.prefixCostWireEncode).flatten))
              = some ((c.lsaWireEncode self.toLsa
                    ++ (self.m_npl.getNameCosts.map c.prefixCostWireEncode).flatten).length,
                  c.lsaWireEncode self.toLsa
                    ++ (self.m_npl.getNameCosts.map c.prefixCostWireEncode).flatten)) := by
  have hval : c.lsaWireEncode self.toLsa
      ++ (self.m_npl.getNameCosts.map c.prefixCostWireEncode).flatten
      = self.encodedValue c := rfl
  rw [hval, wireEncodeImpl_append c t self block, wireEncodeImpl_append c t self []]
  refine ⟨rfl, ?_, ?_, ?_⟩
  · simp only [List.length_append]
    omega
  · simp only [List.length_append, List.append_nil]
  · intro hwire htype hsize
    have hlen : (self.encodedValue c).length < 2 ^ 64 := by
      simp only at hsize
      omega
    refine ⟨?_, readVarNumber_varNumber _ _ hlen⟩
    have h := wireEncode_fresh c t self hwire htype
      (by rw [wireEncodeImpl_append c t self []]; exact hsize)
    rw [wireEncodeImpl_append c t self []] at h
    exact h

/-- The sample object with pairs `(1,5)` and `(2,5)` is encoded as
`137 13 (128 3 7 1 0) (150 2 1 5) (150 2 2 5)`. -/
theorem wireEncode_layout_witness :
    sampleLsa.m_wire = none
      ∧ (0 < sampleTypes.NameLsa ∧ sampleTypes.NameLsa ≤ 4294967295)
      ∧ (sampleLsa.wireEncodeImpl sampleCodecs sampleTypes []).1 < 2 ^ 64
      ∧ (sampleLsa.wireEncode sampleCodecs sampleTypes).1
          = some ⟨137, [137, 13, 128, 3, 7, 1, 0, 150, 2, 1, 5, 150, 2, 2, 5],
              [128, 3, 7, 1, 0, 150, 2, 1, 5, 150, 2, 2, 5]⟩ :=
  ⟨rfl, by decide, by decide,
    ((wireEncode_layout sampleCodecs sampleTypes sampleLsa []).2.2.2 rfl (by decide)
      (by decide)).1⟩

/-- C12, as the code has it: an object decoded from a block whose children are
in descending order and an object built with the same origin router, sequence
number, expiration and pairs return different bytes from `wireEncode()`: the
first returns the received block, the second a fresh encoding. -/
theorem wireEncode_deterministic_counterexample :
    (sampleEmptyLsa.wireDecode sampleCodecs sampleTypes sampleUnsortedWire).2.m_originRouter
        = sampleLsa.m_originRouter
      ∧ (sampleEmptyLsa.wireDecode sampleCodecs sampleTypes sampleUnsortedWire).2.m_seqNo
        = sampleLsa.m_seqNo
      ∧ (sampleEmptyLsa.wireDecode sampleCodecs sampleTypes
            sampleUnsortedWire).2.m_expirationTimePoint = sampleLsa.m_expirationTimePoint
      ∧ (sampleEmptyLsa.wireDecode sampleCodecs sampleTypes
            sampleUnsortedWire).2.m_npl.getNameCosts = sampleLsa.m_npl.getNameCosts
      ∧ ((sampleEmptyLsa.wireDecode sampleCodecs sampleTypes sampleUnsortedWire).2.wireEncode
            sampleCodecs sampleTypes).1
        = some ⟨137, [137, 13, 128, 3, 7, 1, 0, 150, 2, 2, 5, 150, 2, 1, 5],
            [128, 3, 7, 1, 0, 150, 2, 2, 5, 150, 2, 1, 5]⟩
      ∧ (sampleLsa.wireEncode sampleCodecs sampleTypes).1
        = some ⟨137, [137, 13, 128, 3, 7, 1, 0, 150, 2, 1, 5, 150, 2, 2, 5],
            [128, 3, 7, 1, 0, 150, 2, 1, 5, 150, 2, 2, 5]⟩
      ∧ ((sampleEmptyLsa.wireDecode sampleCodecs sampleTypes sampleUnsortedWire).2.wireEncode
            sampleCodecs sampleTypes).1
        ≠ (sampleLsa.wireEncode sampleCodecs sampleTypes).1 := by
  decide

/-- C12, amended: for two objects with the same origin router, sequence number,
expiration and pair sequence, a pass of the templated `wireEncode` writes the
same bytes, and `wireEncode()` returns the same block when neither object holds a
cached wire; an object that holds a cached wire returns that wire. -/
theorem wireEncode_deterministic_without_cache (c : SubCodecs Name) (t : TlvTypes)
    (x y : NameLsa Name) (ho : x.m_originRouter = y.m_originRouter)
    (hs : x.m_seqNo = y.m_seqNo) (he : x.m_expirationTimePoint = y.m_expirationTimePoint)
    (hn : x.m_npl.getNameCosts = y.m_npl.getNameCosts) :
    (∀ block, x.wireEncodeImpl c t block = y.wireEncodeImpl c t block)
      ∧ (x.m_wire = none → y.m_wire = none → (x.wireEncode c t).1 = (y.wireEncode c t).1)
      ∧ (∀ wire, x.m_wire = some wire → (x.wireEncode c t).1 = some wire)
      ∧ (∀ wire, y.m_wire = some wire → (y.wireEncode c t).1 = some wire) := by
  have hbase : x.toLsa = y.toLsa := by
    obtain ⟨⟨o1, s1, e1⟩, n1, w1⟩ := x
    obtain ⟨⟨o2, s2, e2⟩, n2, w2⟩ := y
    simp only at ho hs he
    rw [ho, hs, he]
  have hval : x.encodedValue c = y.encodedValue c := by
    unfold NameLsa.encodedValue
    rw [hbase, show x.m_npl.m_nameCosts = y.m_npl.m_nameCosts from hn]
  have himpl : ∀ block, x.wireEncodeImpl c t block = y.wireEncodeImpl c t block := by
    intro block
    rw [wireEncodeImpl_append, wireEncodeImpl_append, hval]
  refine ⟨himpl, ?_, ?_, ?_⟩
  · intro hx hy
    unfold NameLsa.wireEncode
    rw [hx, hy, himpl []]
    simp only
    cases Block.fromBuffer (y.wireEncodeImpl c t []).2 <;> rfl
  · intro wire hx
    unfold NameLsa.wireEncode
    rw [hx]
  · intro wire hy
    unfold NameLsa.wireEncode
    rw [hy]

/-- The sample object and the object decoded from the block with descending
children have the same content, so a fresh pass of the encoder writes the same
bytes for both. -/
theorem wireEncode_deterministic_without_cache_witness :
    (sampleLsa.m_originRouter
          = (sampleEmptyLsa.wireDecode sampleCodecs sampleTypes
              sampleUnsortedWire).2.m_originRouter
        ∧ sampleLsa.m_seqNo
          = (sampleEmptyLsa.wireDecode sampleCodecs sampleTypes sampleUnsortedWire).2.m_seqNo
        ∧ sampleLsa.m_expirationTimePoint
          = (sampleEmptyLsa.wireDecode sampleCodecs sampleTypes
              sampleUnsortedWire).2.m_expirationTimePoint
        ∧ sampleLsa.m_npl.getNameCosts
          = (sampleEmptyLsa.wireDecode sampleCodecs sampleTypes
              sampleUnsortedWire).2.m_npl.getNameCosts)
      ∧ ∀ block, sampleLsa.wireEncodeImpl sampleCodecs sampleTypes block
          = (sampleEmptyLsa.wireDecode sampleCodecs sampleTypes
              sampleUnsortedWire).2.wireEncodeImpl sampleCodecs sampleTypes block :=
  ⟨⟨by decide, by decide, by decide, by decide⟩,
    (wireEncode_deterministic_without_cache sampleCodecs sampleTypes sampleLsa
      (sampleEmptyLsa.wireDecode sampleCodecs sampleTypes sampleUnsortedWire).2
      (by decide) (by decide) (by decide) (by decide)).1⟩

end LayoutClaims

section CodecClaims

variable {Name : Type} [LinearOrder Name]

/-- C14, as the code has it: a failed `wireDecode` leaves its mark.  A block of
the wrong outer type is rejected, yet it has become the cached wire, and the next
`wireEncode()` returns it; a block with an unknown child after the base record
is rejected, yet the sequence number of the object is now the one of the
rejected block. -/
theorem wireDecode_not_atomic_counterexample :
    (sampleLsa.wireDecode sampleCodecs sampleTypes sampleWrongTypeWire).1
        = .error (.nameLsaError (.unexpectedType "NameLsa" 138))
      ∧ sampleLsa.m_wire = none
      ∧ (sampleLsa.wireDecode sampleCodecs sampleTypes sampleWrongTypeWire).2.m_wire
        = some sampleWrongTypeWire
      ∧ ((sampleLsa.wireDecode sampleCodecs sampleTypes sampleWrongTypeWire).2.wireEncode
            sampleCodecs sampleTypes).1 = some sampleWrongTypeWire
      ∧ (sampleLsa.wireDecode sampleCodecs sampleTypes sampleBadChildWire).1
        = .error (.nameLsaError (.unexpectedType "Name" 151))
      ∧ sampleLsa.m_seqNo = 1
      ∧ (sampleLsa.wireDecode sampleCodecs sampleTypes sampleBadChildWire).2.m_seqNo = 9 := by
  decide

/-- The prefix list is assigned only when `wireDecode` succeeds. -/
theorem wireDecode_m_npl_of_error (c : SubCodecs Name) (t : TlvTypes) (self : NameLsa Name)
    (wire : Block) (e : Thrown) (h : (self.wireDecode c t wire).1 = .error e) :
    (self.wireDecode c t wire).2.m_npl = self.m_npl := by
  by_cases htype : wire.type = t.NameLsa
  · cases hparse : wire.parse with
    | none => simp only [NameLsa.wireDecode, htype, hparse, ne_eq, not_true_eq_false, if_false]
    | some elements =>
      cases elements with
      | nil => simp only [NameLsa.wireDecode, htype, hparse, ne_eq, not_true_eq_false, if_false]
      | cons val rest =>
        by_cases hval : val.type = t.Lsa
        · cases hbase : c.lsaWireDecode val with
          | error e1 =>
            simp only [NameLsa.wireDecode, htype, hparse, hval, hbase, ne_eq,
              not_true_eq_false, if_false, if_true]
          | ok base =>
            cases hnames : decodeNames c t rest ⟨[]⟩ with
            | error e1 =>
              simp only [NameLsa.wireDecode, htype, hparse, hval, hbase, hnames, ne_eq,
                not_true_eq_false, if_false, if_true]
            | ok npl =>
              simp only [NameLsa.wireDecode, htype, hparse, hval, hbase, hnames, ne_eq,
                not_true_eq_false, if_false, if_true] at h
              exact Except.noConfusion h
        · simp only [NameLsa.wireDecode, htype, hparse, hval, ne_eq, not_true_eq_false,
            if_false]
  · simp only [NameLsa.wireDecode, ne_eq, htype, not_false_eq_true, if_true]

/-- C14, amended: when `wireDecode` throws, the prefix list of the object is the
one from before the call, but the cached wire is the rejected block.  The base
fields are those from before the call when the outer type is wrong or the base
record is missing or misplaced; they are those of the base record of the block
when a later child is rejected. -/
theorem wireDecode_failure_state (c : SubCodecs Name) (t : TlvTypes) (self : NameLsa Name)
    (wire : Block) :
    (∀ e, (self.wireDecode c t wire).1 = .error e
        → (self.wireDecode c t wire).2.m_npl = self.m_npl
          ∧ (self.wireDecode c t wire).2.m_wire = some wire)
      ∧ (wire.type ≠ t.NameLsa
        → (self.wireDecode c t wire).2 = ⟨self.toLsa, self.m_npl, some wire⟩)
      ∧ (wire.type = t.NameLsa → wire.parse = some []
        → (self.wireDecode c t wire).2 = ⟨self.toLsa, self.m_npl, some wire⟩)
      ∧ (wire.type = t.NameLsa → ∀ val rest, wire.parse = some (val :: rest)
        → val.type ≠ t.Lsa
        → (self.wireDecode c t wire).2 = ⟨self.toLsa, self.m_npl, some wire⟩)
      ∧ (wire.type = t.NameLsa → ∀ val rest base e, wire.parse = some (val :: rest)
        → val.type = t.Lsa → c.lsaWireDecode val = .ok base
        → decodeNames c t rest ⟨[]⟩ = .error e
        → (self.wireDecode c t wire).1 = .error e
          ∧ (self.wireDecode c t wire).2 = ⟨base, self.m_npl, some wire⟩) := by
  refine ⟨?_, ?_, ?_, ?_, ?_⟩
  · intro e h
    exact ⟨wireDecode_m_npl_of_error c t self wire e h, wireDecode_m_wire c t self wire⟩
  · intro h
    unfold NameLsa.wireDecode
    simp only [ne_eq, h, not_false_eq_true, if_true]
  · intro h hparse
    unfold NameLsa.wireDecode
    simp only [h, hparse, ne_eq, not_true_eq_false, if_false]
  · intro h val rest hparse hval
    unfold NameLsa.wireDecode
    simp only [h, hparse, hval, ne_eq, not_true_eq_false, if_false]
  · intro h val rest base e hparse hval hbase hnames
    unfold NameLsa.wireDecode
    simp only [h, hparse, hval, hbase, hnames, ne_eq, not_true_eq_false, if_false, if_true,
      and_self]

/-- The block with an unknown child after the base record: the call throws and
leaves the base fields of the block and the block as cached wire, with the
prefix list from before. -/
theorem wireDecode_failure_state_witness :
    (sampleBadChildWire.type = sampleTypes.NameLsa
        ∧ sampleBadChildWire.parse
          = some [⟨128, [128, 3, 9, 9, 9], [9, 9, 9]⟩, ⟨151, [151, 0], []⟩]
        ∧ (⟨128, [128, 3, 9, 9, 9], [9, 9, 9]⟩ : Block).type = sampleTypes.Lsa
        ∧ sampleCodecs.lsaWireDecode ⟨128, [128, 3, 9, 9, 9], [9, 9, 9]⟩ = .ok ⟨9, 9, 9⟩
        ∧ decodeNames sampleCodecs sampleTypes [⟨151, [151, 0], []⟩] ⟨[]⟩
          = .error (.nameLsaError (.unexpectedType "Name" 151)))
      ∧ (sampleLsa.wireDecode sampleCodecs sampleTypes sampleBadChildWire).1
          = .error (.nameLsaError (.unexpectedType "Name" 151))
      ∧ (sampleLsa.wireDecode sampleCodecs sampleTypes sampleBadChildWire).2
          = ⟨⟨9, 9, 9⟩, sampleLsa.m_npl, some sampleBadChildWire⟩ :=
  ⟨⟨rfl, by decide, rfl, rfl, rfl⟩,
    (wireDecode_failure_state sampleCodecs sampleTypes sampleLsa sampleBadChildWire).2.2.2.2
      rfl ⟨128, [128, 3, 9, 9, 9], [9, 9, 9]⟩ [⟨151, [151, 0], []⟩] ⟨9, 9, 9⟩
      (.nameLsaError (.unexpectedType "Name" 151)) (by decide) rfl rfl rfl⟩

end CodecClaims

end nlsr
